import Mathlib

/-!
Verification of the omniclip core library: the X25519 key exchange and
session-key derivation, AEAD encryption, clipboard content hashing, the
length-prefixed message framing, the pairing QR URL codec, the sync
server's pairing handler and the service's clipboard-change step, shallowly
embedded from the Rust sources in `core/src`.

External crates (x25519-dalek, ed25519-dalek, aes-gcm, sha2, base64,
urlencoding, uuid, serde_json) are modelled at their documented interfaces
by concrete executable functions; everything else is translated directly
from the repository sources.  Machine integers are `Nat` with explicit
`% 2^w` where wrapping matters; fallible Rust functions return `Except`.
-/

namespace Omniclip

/-- Maximum message size, from `protocol/constants.rs`: 10 MiB. -/
def MAX_MESSAGE_SIZE : Nat := 10 * 1024 * 1024

/-- Info string used in session key derivation, from `protocol/constants.rs`:
the bytes of `"omniclip-session-key"`. -/
def SESSION_KEY_INFO : List Nat := "omniclip-session-key".data.map Char.toNat

/-- Big-endian fixed-width byte encoding of `n` into exactly `k` bytes
(models `u32::to_be_bytes`, `Uuid::as_bytes`, `u64` timestamps...). High
bits beyond `8*k` are dropped, as a fixed-width store does. -/
def toBytesBE : Nat → Nat → List Nat
  | 0, _ => []
  | k + 1, n => toBytesBE k (n / 256) ++ [n % 256]

/-- Little-endian fixed-width byte encoding (x25519 field elements and
public keys serialize little-endian). -/
def toBytesLE : Nat → Nat → List Nat
  | 0, _ => []
  | k + 1, n => n % 256 :: toBytesLE k (n / 256)

/-- Big-endian byte decoding (models `u32::from_be_bytes`). -/
def fromBytesBE (l : List Nat) : Nat :=
  l.foldl (fun acc b => acc * 256 + b) 0

@[simp] theorem length_toBytesBE (k n : Nat) : (toBytesBE k n).length = k := by
  induction k generalizing n with
  | zero => rfl
  | succ k ih => simp [toBytesBE, ih]

@[simp] theorem length_toBytesLE (k n : Nat) : (toBytesLE k n).length = k := by
  induction k generalizing n with
  | zero => rfl
  | succ k ih => simp [toBytesLE, ih]

theorem fromBytesBE_toBytesBE_aux (k : Nat) :
    ∀ n acc, (toBytesBE k n).foldl (fun acc b => acc * 256 + b) acc
      = acc * 256 ^ k + n % 256 ^ k := by
  induction k with
  | zero => intro n acc; simp [toBytesBE, Nat.mod_one]
  | succ k ih =>
    intro n acc
    rw [toBytesBE, List.foldl_append, ih]
    simp only [List.foldl_cons, List.foldl_nil]
    rw [pow_succ', Nat.mod_mul]
    ring

theorem fromBytesBE_toBytesBE {k n : Nat} (h : n < 256 ^ k) :
    fromBytesBE (toBytesBE k n) = n := by
  unfold fromBytesBE
  rw [fromBytesBE_toBytesBE_aux, Nat.mod_eq_of_lt h]
  ring

theorem toBytesBE_injective {k m n : Nat} (hm : m < 256 ^ k) (hn : n < 256 ^ k)
    (h : toBytesBE k m = toBytesBE k n) : m = n := by
  have := congrArg fromBytesBE h
  rwa [fromBytesBE_toBytesBE hm, fromBytesBE_toBytesBE hn] at this

/-- Error kinds from `error.rs`.  The `Serialization` and `IoError`
variants wrap foreign error types in the source; every payload is modelled
as a string. -/
inductive Error where
  | Crypto (msg : String)
  | Serialization (msg : String)
  | Network (msg : String)
  | Discovery (msg : String)
  | Clipboard (msg : String)
  | InvalidMessage (msg : String)
  | NotPaired (msg : String)
  | IoError (msg : String)
deriving DecidableEq

/-- The prime 2^255 - 19 underlying Curve25519. -/
def curveP : Nat := 2 ^ 255 - 19

/-- X25519 scalar clamping as applied by x25519-dalek to every ephemeral
secret: clear the low three bits and bit 255, set bit 254. -/
def clampScalar (a : Nat) : Nat := 2 ^ 254 + 8 * (a / 8 % 2 ^ 251)

/-- Model of the external x25519-dalek scalar multiplication: the curve
group is modelled as the multiplicative monoid of `Z/curveP`, so scalar
multiplication is exponentiation.  Commutativity of the two-party
agreement is exactly the algebraic property X25519 provides. -/
def x25519 (scalar point : Nat) : Nat := point ^ clampScalar scalar % curveP

/-- The X25519 base point. -/
def basePoint : Nat := 9

/-- Public half of an ephemeral exchange secret
(`EphemeralSecret::public_key` in `crypto/keys.rs`). -/
def ephemeralPublicKey (secret : Nat) : Nat := x25519 secret basePoint

/-- ECDH key exchange, `EphemeralSecret::diffie_hellman(self, their_public)`
from `crypto/keys.rs`; the Rust function consumes the secret. -/
def diffieHellman (secret theirPublic : Nat) : Nat := x25519 secret theirPublic

/-- Shared secret serialization (`SharedSecret::as_bytes`, 32 bytes,
little-endian field element). -/
def sharedSecretBytes (s : Nat) : List Nat := toBytesLE 32 s

/-- The two directions of the exchange agree:
`a_secret ⊕ b_public = b_secret ⊕ a_public`. -/
theorem diffieHellman_comm (a b : Nat) :
    diffieHellman a (ephemeralPublicKey b) = diffieHellman b (ephemeralPublicKey a) := by
  unfold diffieHellman ephemeralPublicKey x25519
  rw [← Nat.pow_mod, ← Nat.pow_mod, ← pow_mul, ← pow_mul, Nat.mul_comm]

/-- Stand-in for the external sha2 crate's SHA-256 at its interface: a
deterministic function from a byte sequence to a 32-byte digest.  The
compression function is not modelled; no theorem below relies on any
property of the digest beyond it being a function of its input. -/
def sha256 (input : List Nat) : List Nat :=
  toBytesBE 32 (input.foldl (fun acc b => (acc * 16777619 + b + 1) % 2 ^ 256) 5381)

/-- AES-256-GCM session key (`SessionKey` in `crypto/encryption.rs`).  The
Rust struct stores the cipher initialised from the 32 derived key bytes;
the model stores the key bytes themselves. -/
structure SessionKey where
  keyBytes : List Nat
deriving DecidableEq

/-- `SessionKey::from_shared_secret`: SHA256(shared_secret ‖ SESSION_KEY_INFO). -/
def SessionKey.fromSharedSecret (shared : Nat) : SessionKey :=
  ⟨sha256 (sharedSecretBytes shared ++ SESSION_KEY_INFO)⟩

/-- Key schedule mix for the model block cipher. -/
def keyMix (k : SessionKey) : Nat := fromBytesBE k.keyBytes

/-- Model of the keyed AES-256 block function used inside GCM: for a fixed
key, a permutation of 128-bit blocks.  Injectivity on blocks is the only
property the proofs use; real AES is a permutation as well. -/
def blockE (k : SessionKey) (x : Nat) : Nat := (x + keyMix k) % 2 ^ 128

/-- GCM initial counter block for a 12-byte nonce: J0 = nonce ‖ 0x00000001. -/
def j0 (nonce : Nat) : Nat := nonce * 2 ^ 32 + 1

/-- CTR-mode keystream byte `i` of the model cipher. -/
def ksByte (k : SessionKey) (nonce i : Nat) : Nat :=
  blockE k (j0 nonce + 1 + i / 16) / 2 ^ (8 * (15 - i % 16)) % 256

/-- XOR a byte list against keystream bytes starting at index `i` (CTR
encryption; applying it twice decrypts). -/
def xorKs (f : Nat → Nat) : List Nat → Nat → List Nat
  | [], _ => []
  | b :: bs, i => (b ^^^ f i) :: xorKs f bs (i + 1)

/-- GHASH-shaped authenticator folded over the ciphertext body. -/
def ghash (k : SessionKey) (ct : List Nat) : Nat :=
  ct.foldl (fun acc b => (acc ^^^ b) * (2 * keyMix k + 3) % 2 ^ 128) 0

/-- GCM authentication tag value: GHASH(ciphertext) XOR E_K(J0). -/
def tagNat (k : SessionKey) (nonce : Nat) (ct : List Nat) : Nat :=
  ghash k ct ^^^ blockE k (j0 nonce)

/-- The 16 tag bytes appended to the ciphertext by the aes-gcm crate. -/
def gcmTag (k : SessionKey) (nonce : Nat) (ct : List Nat) : List Nat :=
  toBytesBE 16 (tagNat k nonce ct)

/-- Encrypted data with its nonce (`EncryptedPayload` in
`crypto/encryption.rs`): 12 nonce bytes plus the ciphertext, which the
aes-gcm crate returns as encrypted body followed by the 16 tag bytes. -/
structure EncryptedPayload where
  nonce : List Nat
  ciphertext : List Nat
deriving DecidableEq

/-- `SessionKey::encrypt` after the 12 random nonce bytes have been drawn:
`nonceRand` is the value of those bytes, so the randomness of
`rand::thread_rng().fill_bytes` is an explicit input. -/
def encryptPayload (k : SessionKey) (nonceRand : Nat) (plaintext : List Nat) :
    EncryptedPayload :=
  let n := nonceRand % 2 ^ 96
  let body := xorKs (ksByte k n) plaintext 0
  { nonce := toBytesBE 12 n, ciphertext := body ++ gcmTag k n body }

/-- `SessionKey::encrypt` returns `Result`; the aead encrypt call cannot
fail on in-range inputs, so the model always succeeds. -/
def SessionKey.encrypt (k : SessionKey) (nonceRand : Nat) (plaintext : List Nat) :
    Except Error EncryptedPayload :=
  .ok (encryptPayload k nonceRand plaintext)

/-- `SessionKey::decrypt`: split off the 16 tag bytes, recompute and check
the tag, then invert the CTR keystream.  Any mismatch surfaces as the
aead crate's opaque error, mapped to `Error::Crypto` as in
`crypto/encryption.rs`. -/
def SessionKey.decrypt (k : SessionKey) (p : EncryptedPayload) :
    Except Error (List Nat) :=
  let n := fromBytesBE p.nonce
  if p.ciphertext.length < 16 then
    .error (.Crypto "decryption failed: aead::Error")
  else
    let body := p.ciphertext.take (p.ciphertext.length - 16)
    let tag := p.ciphertext.drop (p.ciphertext.length - 16)
    if tag = gcmTag k n body then .ok (xorKs (ksByte k n) body 0)
    else .error (.Crypto "decryption failed: aead::Error")

@[simp] theorem length_xorKs (f : Nat → Nat) (l : List Nat) (i : Nat) :
    (xorKs f l i).length = l.length := by
  induction l generalizing i with
  | nil => rfl
  | cons b bs ih => simp [xorKs, ih]

theorem xorKs_xorKs (f : Nat → Nat) (l : List Nat) (i : Nat) :
    xorKs f (xorKs f l i) i = l := by
  induction l generalizing i with
  | nil => rfl
  | cons b bs ih =>
    simp only [xorKs, ih, List.cons.injEq, and_true]
    rw [Nat.xor_assoc, Nat.xor_self, Nat.xor_zero]

/-- Decryption inverts encryption under the same key (helper shared by the
claims about AEAD roundtrips). -/
theorem decrypt_encryptPayload (k : SessionKey) (nonceRand : Nat) (pt : List Nat) :
    SessionKey.decrypt k (encryptPayload k nonceRand pt) = .ok pt := by
  have hn : nonceRand % 2 ^ 96 < 256 ^ 12 := by
    have : (256 : Nat) ^ 12 = 2 ^ 96 := by norm_num
    rw [this]
    exact Nat.mod_lt _ (by norm_num)
  unfold SessionKey.decrypt encryptPayload
  simp only [fromBytesBE_toBytesBE hn]
  have hlen : (xorKs (ksByte k (nonceRand % 2 ^ 96)) pt 0 ++
      gcmTag k (nonceRand % 2 ^ 96) (xorKs (ksByte k (nonceRand % 2 ^ 96)) pt 0)).length
      = pt.length + 16 := by
    simp [gcmTag]
  rw [if_neg (by omega)]
  have hsub : pt.length + 16 - 16 = (xorKs (ksByte k (nonceRand % 2 ^ 96)) pt 0).length := by
    simp
  rw [hlen, hsub, List.take_left, List.drop_left, if_pos rfl, xorKs_xorKs]

theorem xor_lt_two_pow_nat {n a b : Nat} (ha : a < 2 ^ n) (hb : b < 2 ^ n) :
    a ^^^ b < 2 ^ n :=
  Nat.bitwise_lt_two_pow ha hb

theorem blockE_lt (k : SessionKey) (x : Nat) : blockE k x < 2 ^ 128 :=
  Nat.mod_lt _ (by norm_num)

theorem ghash_fold_lt (k : SessionKey) (ct : List Nat) :
    ∀ acc, acc < 2 ^ 128 →
      ct.foldl (fun acc b => (acc ^^^ b) * (2 * keyMix k + 3) % 2 ^ 128) acc < 2 ^ 128 := by
  induction ct with
  | nil => intro acc h; simpa using h
  | cons b bs ih => intro acc _; exact ih _ (Nat.mod_lt _ (by norm_num))

theorem ghash_lt (k : SessionKey) (ct : List Nat) : ghash k ct < 2 ^ 128 :=
  ghash_fold_lt k ct 0 (by norm_num)

theorem tagNat_lt (k : SessionKey) (nonce : Nat) (ct : List Nat) :
    tagNat k nonce ct < 2 ^ 128 :=
  xor_lt_two_pow_nat (ghash_lt k ct) (blockE_lt k _)

theorem blockE_inj {k : SessionKey} {x y : Nat} (hx : x < 2 ^ 128) (hy : y < 2 ^ 128)
    (hxy : x ≠ y) : blockE k x ≠ blockE k y := by
  unfold blockE
  omega

/-- Distinct nonce draws yield distinct nonce fields and distinct
ciphertexts: the tag block E_K(J0) differs whenever the nonces differ,
because the block function is a permutation for a fixed key. -/
theorem encryptPayload_fresh (k : SessionKey) (pt : List Nat) {n₁ n₂ : Nat}
    (h₁ : n₁ < 2 ^ 96) (h₂ : n₂ < 2 ^ 96) (hne : n₁ ≠ n₂) :
    (encryptPayload k n₁ pt).nonce ≠ (encryptPayload k n₂ pt).nonce ∧
    (encryptPayload k n₁ pt).ciphertext ≠ (encryptPayload k n₂ pt).ciphertext := by
  have e₁ : n₁ % 2 ^ 96 = n₁ := Nat.mod_eq_of_lt h₁
  have e₂ : n₂ % 2 ^ 96 = n₂ := Nat.mod_eq_of_lt h₂
  have h96 : (256 : Nat) ^ 12 = 2 ^ 96 := by norm_num
  have h128 : (256 : Nat) ^ 16 = 2 ^ 128 := by norm_num
  constructor
  · simp only [encryptPayload, e₁, e₂]
    intro h
    exact hne (toBytesBE_injective (h96 ▸ h₁) (h96 ▸ h₂) h)
  · simp only [encryptPayload, e₁, e₂]
    intro h
    have hlen : (xorKs (ksByte k n₁) pt 0).length = (xorKs (ksByte k n₂) pt 0).length := by
      simp
    have hbody := List.append_inj_left h hlen
    have htag := List.append_inj_right h hlen
    rw [← hbody] at htag
    have htagNat : tagNat k n₁ (xorKs (ksByte k n₁) pt 0)
        = tagNat k n₂ (xorKs (ksByte k n₁) pt 0) :=
      toBytesBE_injective (h128 ▸ tagNat_lt k n₁ _) (h128 ▸ tagNat_lt k n₂ _) htag
    unfold tagNat at htagNat
    have hblock : blockE k (j0 n₁) = blockE k (j0 n₂) := Nat.xor_right_inj.mp htagNat
    have hj₁ : j0 n₁ < 2 ^ 128 := by unfold j0; omega
    have hj₂ : j0 n₂ < 2 ^ 128 := by unfold j0; omega
    have hjne : j0 n₁ ≠ j0 n₂ := by unfold j0; omega
    exact blockE_inj hj₁ hj₂ hjne hblock

/-- C2: for every session key and plaintext, AEAD decryption inverts
encryption under the same key; and with the per-call 12-byte random
nonce made an explicit input, two encryptions of the same plaintext
under the same key with distinct nonce draws produce `EncryptedPayload`s
with different nonces and different ciphertexts. -/
theorem encrypt_then_decrypt_id_and_nonce_freshness :
    (∀ (k : SessionKey) (nonceRand : Nat) (pt : List Nat),
      (SessionKey.encrypt k nonceRand pt).bind (SessionKey.decrypt k) = .ok pt) ∧
    (∀ (k : SessionKey) (pt : List Nat) (n₁ n₂ : Nat),
      n₁ < 2 ^ 96 → n₂ < 2 ^ 96 → n₁ ≠ n₂ →
      (encryptPayload k n₁ pt).nonce ≠ (encryptPayload k n₂ pt).nonce ∧
      (encryptPayload k n₁ pt).ciphertext ≠ (encryptPayload k n₂ pt).ciphertext) := by
  constructor
  · intro k nonceRand pt
    exact decrypt_encryptPayload k nonceRand pt
  · intro k pt n₁ n₂ h₁ h₂ hne
    exact encryptPayload_fresh k pt h₁ h₂ hne

/-- Witness for the C2 theorem at concrete inputs. -/
theorem encrypt_then_decrypt_id_and_nonce_freshness_witness :
    ((0 : Nat) < 2 ^ 96 ∧ (1 : Nat) < 2 ^ 96 ∧ (0 : Nat) ≠ 1) ∧
    ((SessionKey.encrypt ⟨[7]⟩ 5 [104, 105]).bind (SessionKey.decrypt ⟨[7]⟩)
      = .ok [104, 105]) ∧
    ((encryptPayload ⟨[7]⟩ 0 [104]).nonce ≠ (encryptPayload ⟨[7]⟩ 1 [104]).nonce ∧
     (encryptPayload ⟨[7]⟩ 0 [104]).ciphertext ≠ (encryptPayload ⟨[7]⟩ 1 [104]).ciphertext) :=
  ⟨⟨by decide, by decide, by decide⟩,
   encrypt_then_decrypt_id_and_nonce_freshness.1 ⟨[7]⟩ 5 [104, 105],
   encrypt_then_decrypt_id_and_nonce_freshness.2 ⟨[7]⟩ [104] 0 1
     (by decide) (by decide) (by decide)⟩

/-- C1: the session keys the two parties derive independently from the
same exchange are bit-identical, and content encrypted under A's derived
key decrypts correctly under B's independently-derived key. -/
theorem session_key_symmetry_and_cross_decrypt (a b nonceRand : Nat) (pt : List Nat) :
    SessionKey.fromSharedSecret (diffieHellman a (ephemeralPublicKey b)) =
      SessionKey.fromSharedSecret (diffieHellman b (ephemeralPublicKey a)) ∧
    (SessionKey.encrypt (SessionKey.fromSharedSecret (diffieHellman a (ephemeralPublicKey b)))
        nonceRand pt).bind
      (SessionKey.decrypt (SessionKey.fromSharedSecret (diffieHellman b (ephemeralPublicKey a))))
      = .ok pt := by
  have hk := congrArg SessionKey.fromSharedSecret (diffieHellman_comm a b)
  refine ⟨hk, ?_⟩
  rw [hk]
  exact decrypt_encryptPayload _ nonceRand pt

/-- Clipboard content types from `protocol/messages.rs` (text only for the
MVP).  Strings are modelled by their character sequences. -/
inductive ClipboardContent where
  | Text (text : String)
  | RichText (plain : String) (html : String)
deriving DecidableEq

/-- SHA256 hash of clipboard content (`ContentHash`, a 32-byte digest). -/
structure ContentHash where
  bytes : List Nat
deriving DecidableEq

/-- The stream `ClipboardContent::hash` feeds to the SHA-256 hasher: a
content-type tag (`text:` or `rich:`) followed by the text fields — for
rich text, `plain` then `html`, concatenated with no separator. -/
def hashInput : ClipboardContent → List Char
  | .Text text => "text:".data ++ text.data
  | .RichText plain html => "rich:".data ++ plain.data ++ html.data

/-- `ClipboardContent::hash`: SHA-256 over the tagged stream. -/
def ClipboardContent.hash (c : ClipboardContent) : ContentHash :=
  ⟨sha256 ((hashInput c).map Char.toNat)⟩

/-- C8 counterexample: two distinct rich-text contents feed the identical
stream to the hasher (the `rich:` arm concatenates `plain` and `html` with
no length separator), so their digests are deterministically equal —
refuting that no two distinct inputs deterministically share a digest. -/
theorem hash_collision_on_distinct_richtext :
    ClipboardContent.RichText "ab" "" ≠ ClipboardContent.RichText "a" "b" ∧
    (ClipboardContent.RichText "ab" "").hash = (ClipboardContent.RichText "a" "b").hash := by
  exact ⟨by decide, rfl⟩

/-- C8 amended: hashing is a pure function (equal content yields equal
hashes); the hasher input is injective on `Text` values and never collides
across the two content types (the tag differs); but two `RichText` values
feed the same stream exactly when their `plain ++ html` concatenations
agree, so distinct rich-text pairs can deterministically share a digest. -/
theorem hash_deterministic_and_type_tagged :
    (∀ c : ClipboardContent, c.hash = c.hash) ∧
    (∀ s t : String, hashInput (.Text s) = hashInput (.Text t) → s = t) ∧
    (∀ s p h : String, hashInput (.Text s) ≠ hashInput (.RichText p h)) ∧
    (∀ p₁ h₁ p₂ h₂ : String,
      hashInput (.RichText p₁ h₁) = hashInput (.RichText p₂ h₂) ↔
        p₁.data ++ h₁.data = p₂.data ++ h₂.data) := by
  refine ⟨fun c => rfl, ?_, ?_, ?_⟩
  · intro s t h
    unfold hashInput at h
    exact String.ext ((List.append_right_inj _).mp h)
  · intro s p h hc
    unfold hashInput at hc
    have hhead := congrArg List.head? hc
    simp only [show "text:".data = 't' :: "ext:".data from rfl,
      show "rich:".data = 'r' :: "ich:".data from rfl,
      List.cons_append, List.head?_cons, Option.some.injEq] at hhead
    exact absurd hhead (by decide)
  · intro p₁ h₁ p₂ h₂
    show "rich:".data ++ p₁.data ++ h₁.data = "rich:".data ++ p₂.data ++ h₂.data ↔ _
    rw [List.append_assoc, List.append_assoc]
    exact List.append_right_inj _

/-- Witness for the amended C8 theorem at concrete contents. -/
theorem hash_deterministic_and_type_tagged_witness :
    (ClipboardContent.Text "hello").hash = (ClipboardContent.Text "hello").hash ∧
    (hashInput (.Text "hi") = hashInput (.Text "hi") ∧ ("hi" : String) = "hi") ∧
    hashInput (.Text "x") ≠ hashInput (.RichText "x" "") ∧
    (hashInput (.RichText "a" "b") = hashInput (.RichText "a" "b") ↔
      "a".data ++ "b".data = "a".data ++ "b".data) :=
  ⟨hash_deterministic_and_type_tagged.1 _,
   ⟨rfl, hash_deterministic_and_type_tagged.2.1 "hi" "hi" rfl⟩,
   hash_deterministic_and_type_tagged.2.2.1 "x" "x" "",
   hash_deterministic_and_type_tagged.2.2.2 "a" "b" "a" "b"⟩

/-- Ed25519 signing key from `crypto/keys.rs`, modelled by its 32-byte
seed value. -/
structure SigningKey where
  seed : Nat
deriving DecidableEq

/-- Ed25519 verifying (public) key, modelled by its encoded point value. -/
structure VerifyingKey where
  pubValue : Nat
deriving DecidableEq

/-- `SigningKey::verifying_key`: the seed-to-public derivation of the
external ed25519-dalek crate, modelled as an explicit function. -/
def SigningKey.verifyingKey (sk : SigningKey) : VerifyingKey :=
  ⟨sk.seed % 2 ^ 256⟩

/-- Serialized verifying key (`VerifyingKey::to_bytes`, 32 bytes). -/
def VerifyingKey.toBytes (vk : VerifyingKey) : List Nat :=
  toBytesLE 32 vk.pubValue

/-- Model of a deterministic Ed25519 signature at the crate's interface:
64 bytes determined by the verifying key and the message.  Verification
recomputes and compares, which validates exactly the contract the source
relies on — a signature made with `sk` verifies under `sk.verifying_key()`. -/
def edSignature (vk : VerifyingKey) (message : List Nat) : List Nat :=
  sha256 (vk.toBytes ++ message) ++ sha256 (message ++ vk.toBytes)

/-- `SigningKey::sign` from `crypto/keys.rs` (Ed25519 signatures are
deterministic). -/
def SigningKey.sign (sk : SigningKey) (message : List Nat) : List Nat :=
  edSignature sk.verifyingKey message

/-- `VerifyingKey::verify` from `crypto/keys.rs`: a 64-byte length check
(the `try_into` into `[u8; 64]`) and then the curve verification, with
failures mapped to `Error::Crypto`. -/
def VerifyingKey.verify (vk : VerifyingKey) (message signature : List Nat) :
    Except Error Unit :=
  if signature.length ≠ 64 then .error (.Crypto "invalid signature length")
  else if signature = edSignature vk message then .ok ()
  else .error (.Crypto "signature error")

@[simp] theorem length_sha256 (l : List Nat) : (sha256 l).length = 32 := by
  simp [sha256]

theorem verify_sign (sk : SigningKey) (message : List Nat) :
    sk.verifyingKey.verify message (sk.sign message) = .ok () := by
  have hlen : (sk.sign message).length = 64 := by
    simp [SigningKey.sign, edSignature]
  unfold VerifyingKey.verify
  rw [if_neg (by omega), SigningKey.sign, if_pos rfl]

/-- Device announcement message (`AnnounceMessage`). -/
structure AnnounceMessage where
  device_id : Nat
  device_name : String
  pubkey_fingerprint : String
  protocol_version : Nat
deriving DecidableEq

/-- Pairing request, step 1 of the handshake (`PairRequestMessage`). -/
structure PairRequestMessage where
  session_id : Nat
  device_id : Nat
  device_name : String
  ephemeral_pubkey : Nat
  identity_pubkey : VerifyingKey
deriving DecidableEq

/-- Pairing acceptance, step 2 of the handshake (`PairAcceptMessage`).
The signature covers session_id ‖ both ephemeral pubkeys. -/
structure PairAcceptMessage where
  session_id : Nat
  device_id : Nat
  device_name : String
  ephemeral_pubkey : Nat
  identity_pubkey : VerifyingKey
  signature : List Nat
deriving DecidableEq

/-- Clipboard content sync message (`ClipboardSyncMessage`). -/
structure ClipboardSyncMessage where
  message_id : Nat
  sender_id : Nat
  content_hash : ContentHash
  encrypted_content : EncryptedPayload
  timestamp : Nat
deriving DecidableEq

/-- The closed set of protocol messages from `protocol/messages.rs`. -/
inductive Message where
  | Announce (m : AnnounceMessage)
  | PairRequest (m : PairRequestMessage)
  | PairAccept (m : PairAcceptMessage)
  | PairReject (session_id : Nat) (reason : String)
  | ClipboardSync (m : ClipboardSyncMessage)
  | Ack (message_id : Nat)
  | Ping (timestamp : Nat)
  | Pong (timestamp : Nat)
deriving DecidableEq

/-- Bytes of a string field inside a serialized message. -/
def strBytes (s : String) : List Nat := s.data.map Char.toNat

/-- UUID serialization: `Uuid::as_bytes`, the 16 bytes big-endian. -/
def uuidBytes (u : Nat) : List Nat := toBytesBE 16 u

/-- Stand-in for `serde_json::to_vec` on a `Message`
(`Message::to_bytes`): a deterministic, self-describing byte encoding with
the variant tag embedded.  The exact JSON text is not modelled; the
theorems only rely on the encoding being a function of the message whose
length grows with the carried payload. -/
def serializeMessage : Message → List Nat
  | .Announce m =>
      0 :: uuidBytes m.device_id ++ strBytes m.device_name
        ++ strBytes m.pubkey_fingerprint ++ toBytesBE 2 m.protocol_version
  | .PairRequest m =>
      1 :: uuidBytes m.session_id ++ uuidBytes m.device_id ++ strBytes m.device_name
        ++ toBytesLE 32 m.ephemeral_pubkey ++ m.identity_pubkey.toBytes
  | .PairAccept m =>
      2 :: uuidBytes m.session_id ++ uuidBytes m.device_id ++ strBytes m.device_name
        ++ toBytesLE 32 m.ephemeral_pubkey ++ m.identity_pubkey.toBytes ++ m.signature
  | .PairReject sid reason => 3 :: uuidBytes sid ++ strBytes reason
  | .ClipboardSync m =>
      4 :: uuidBytes m.message_id ++ uuidBytes m.sender_id ++ m.content_hash.bytes
        ++ m.encrypted_content.nonce ++ m.encrypted_content.ciphertext
        ++ toBytesBE 8 m.timestamp
  | .Ack message_id => 5 :: uuidBytes message_id
  | .Ping timestamp => 6 :: toBytesBE 8 timestamp
  | .Pong timestamp => 7 :: toBytesBE 8 timestamp

/-- The oversize-frame error text from `sync/framing.rs`. -/
def frameTooLargeMsg (len : Nat) : String :=
  "message too large: " ++ toString len ++ " bytes (max "
    ++ toString MAX_MESSAGE_SIZE ++ ")"

/-- `write_framed_message` from `sync/framing.rs`, the output stream made
explicit: the result of the call together with the bytes written.  On the
oversize path the function errors before writing anything. -/
def writeFramedMessage (payload : List Nat) : Except Error Unit × List Nat :=
  if payload.length > MAX_MESSAGE_SIZE then
    (.error (.InvalidMessage (frameTooLargeMsg payload.length)), [])
  else
    (.ok (), toBytesBE 4 payload.length ++ payload)

/-- `read_framed_message` from `sync/framing.rs` over an explicit input
stream: the result of the call together with the unread remainder.  The
size check happens after the four length bytes and before the payload is
allocated or read. -/
def readFramedMessage (input : List Nat) : Except Error (List Nat) × List Nat :=
  if input.length < 4 then
    (.error (.Network "failed to fill whole buffer"), input)
  else
    let len := fromBytesBE (input.take 4)
    let rest := input.drop 4
    if len > MAX_MESSAGE_SIZE then
      (.error (.InvalidMessage (frameTooLargeMsg len)), rest)
    else if rest.length < len then
      (.error (.Network "failed to fill whole buffer"), rest)
    else
      (.ok (rest.take len), rest.drop len)

theorem writeFramedMessage_oversize {payload : List Nat}
    (h : payload.length > MAX_MESSAGE_SIZE) :
    writeFramedMessage payload
      = (.error (.InvalidMessage (frameTooLargeMsg payload.length)), []) := by
  unfold writeFramedMessage
  rw [if_pos h]

theorem readFramedMessage_oversize {pre : List Nat} (rest : List Nat)
    (hlen : pre.length = 4) (hbig : fromBytesBE pre > MAX_MESSAGE_SIZE) :
    readFramedMessage (pre ++ rest)
      = (.error (.InvalidMessage (frameTooLargeMsg (fromBytesBE pre))), rest) := by
  unfold readFramedMessage
  rw [if_neg (by simp [hlen]), List.take_left' hlen, List.drop_left' hlen, if_pos hbig]

/-- C4: `write_framed_message` rejects any payload over 10,485,760 bytes
with an `InvalidMessage` error before writing anything; and
`read_framed_message` rejects any length prefix decoding to more than
10,485,760 with an `InvalidMessage` error without touching the payload
bytes — the result is the same whatever follows the four length bytes. -/
theorem oversize_frames_rejected :
    (∀ payload : List Nat, payload.length > MAX_MESSAGE_SIZE →
      writeFramedMessage payload
        = (.error (.InvalidMessage (frameTooLargeMsg payload.length)), [])) ∧
    (∀ pre rest : List Nat, pre.length = 4 → fromBytesBE pre > MAX_MESSAGE_SIZE →
      readFramedMessage (pre ++ rest)
        = (.error (.InvalidMessage (frameTooLargeMsg (fromBytesBE pre))), rest) ∧
      (readFramedMessage (pre ++ rest)).1 = (readFramedMessage (pre ++ [])).1) := by
  refine ⟨fun payload h => writeFramedMessage_oversize h, fun pre rest h4 hbig => ?_⟩
  rw [readFramedMessage_oversize rest h4 hbig, readFramedMessage_oversize [] h4 hbig]
  exact ⟨rfl, rfl⟩

/-- Witness for the C4 theorem: a payload exactly one byte over the limit
is rejected by the writer, and a length prefix decoding to one byte over
the limit is rejected by the reader. -/
theorem oversize_frames_rejected_witness :
    ((List.replicate (MAX_MESSAGE_SIZE + 1) (0 : Nat)).length > MAX_MESSAGE_SIZE ∧
      writeFramedMessage (List.replicate (MAX_MESSAGE_SIZE + 1) (0 : Nat))
        = (.error (.InvalidMessage
            (frameTooLargeMsg (List.replicate (MAX_MESSAGE_SIZE + 1) (0 : Nat)).length)), [])) ∧
    ((toBytesBE 4 (MAX_MESSAGE_SIZE + 1)).length = 4 ∧
      fromBytesBE (toBytesBE 4 (MAX_MESSAGE_SIZE + 1)) > MAX_MESSAGE_SIZE ∧
      readFramedMessage (toBytesBE 4 (MAX_MESSAGE_SIZE + 1) ++ [42])
        = (.error (.InvalidMessage
            (frameTooLargeMsg (fromBytesBE (toBytesBE 4 (MAX_MESSAGE_SIZE + 1))))), [42])) := by
  have h1 : (List.replicate (MAX_MESSAGE_SIZE + 1) (0 : Nat)).length > MAX_MESSAGE_SIZE := by
    rw [List.length_replicate]
    exact Nat.lt_succ_self _
  have h2 : (toBytesBE 4 (MAX_MESSAGE_SIZE + 1)).length = 4 := length_toBytesBE 4 _
  have h3 : fromBytesBE (toBytesBE 4 (MAX_MESSAGE_SIZE + 1)) > MAX_MESSAGE_SIZE := by decide
  exact ⟨⟨h1, oversize_frames_rejected.1 _ h1⟩,
    ⟨h2, h3, (oversize_frames_rejected.2 _ [42] h2 h3).1⟩⟩

/-- C5: for every payload within the 10 MiB limit, including the empty
payload, reading the framed bytes produced by the writer returns exactly
the original payload and consumes the whole frame. -/
theorem frame_roundtrip (payload : List Nat)
    (h : payload.length ≤ MAX_MESSAGE_SIZE) :
    writeFramedMessage payload = (.ok (), toBytesBE 4 payload.length ++ payload) ∧
    readFramedMessage (toBytesBE 4 payload.length ++ payload) = (.ok payload, []) := by
  have h4 : (toBytesBE 4 payload.length).length = 4 := length_toBytesBE 4 _
  have hlt : payload.length < 256 ^ 4 := by
    have : MAX_MESSAGE_SIZE < 256 ^ 4 := by norm_num [MAX_MESSAGE_SIZE]
    omega
  constructor
  · unfold writeFramedMessage
    rw [if_neg (by omega)]
  · unfold readFramedMessage
    rw [if_neg (by simp [h4]), List.take_left' h4, List.drop_left' h4,
      fromBytesBE_toBytesBE hlt, if_neg (by omega), if_neg (by omega),
      List.take_length, List.drop_length]

/-- Witness for the C5 theorem at the empty payload. -/
theorem frame_roundtrip_witness :
    ([] : List Nat).length ≤ MAX_MESSAGE_SIZE ∧
    writeFramedMessage ([] : List Nat)
      = (.ok (), toBytesBE 4 ([] : List Nat).length ++ []) ∧
    readFramedMessage (toBytesBE 4 ([] : List Nat).length ++ []) = (.ok [], []) :=
  ⟨Nat.zero_le _, (frame_roundtrip [] (Nat.zero_le _)).1, (frame_roundtrip [] (Nat.zero_le _)).2⟩

/-- `Message::to_frame` from `protocol/messages.rs`: serialize, then
prepend the 4-byte big-endian length of the payload — with no
maximum-size check anywhere.  The only failure path in the source is
serialization, which cannot fail for the model serializer. -/
def Message.toFrame (m : Message) : Except Error (List Nat) :=
  .ok (toBytesBE 4 (serializeMessage m).length ++ serializeMessage m)

/-- `PeerConnection::send` from `sync/connection.rs`: frame with
`Message::to_frame` and write the whole frame to the stream; the model
returns the bytes written.  No size check is applied. -/
def peerConnectionSend (m : Message) : Except Error (List Nat) :=
  match m.toFrame with
  | .ok frame => .ok frame
  | .error e => .error e

/-- C10: `Message::to_frame`, and hence `PeerConnection::send`, apply no
maximum-size check: every message is framed successfully as length prefix
plus payload, even when the serialized payload exceeds the 10,485,760-byte
limit that `write_framed_message` enforces on the same bytes. -/
theorem to_frame_applies_no_size_check (m : Message) :
    Message.toFrame m
      = .ok (toBytesBE 4 (serializeMessage m).length ++ serializeMessage m) ∧
    peerConnectionSend m
      = .ok (toBytesBE 4 (serializeMessage m).length ++ serializeMessage m) ∧
    ((serializeMessage m).length > MAX_MESSAGE_SIZE →
      writeFramedMessage (serializeMessage m)
        = (.error (.InvalidMessage (frameTooLargeMsg (serializeMessage m).length)), [])) :=
  ⟨rfl, rfl, fun h => writeFramedMessage_oversize h⟩

/-- Witness for the C10 theorem: a `ClipboardSync` message whose encrypted
content is one byte over the frame limit still frames successfully while
`write_framed_message` rejects its serialization. -/
theorem to_frame_applies_no_size_check_witness :
    (serializeMessage (.ClipboardSync ⟨0, 0, ⟨[]⟩, ⟨[], List.replicate (MAX_MESSAGE_SIZE + 1) 0⟩, 0⟩)).length
        > MAX_MESSAGE_SIZE ∧
    Message.toFrame (.ClipboardSync ⟨0, 0, ⟨[]⟩, ⟨[], List.replicate (MAX_MESSAGE_SIZE + 1) 0⟩, 0⟩)
      = .ok (toBytesBE 4 (serializeMessage (.ClipboardSync ⟨0, 0, ⟨[]⟩, ⟨[], List.replicate (MAX_MESSAGE_SIZE + 1) 0⟩, 0⟩)).length
          ++ serializeMessage (.ClipboardSync ⟨0, 0, ⟨[]⟩, ⟨[], List.replicate (MAX_MESSAGE_SIZE + 1) 0⟩, 0⟩)) ∧
    writeFramedMessage (serializeMessage (.ClipboardSync ⟨0, 0, ⟨[]⟩, ⟨[], List.replicate (MAX_MESSAGE_SIZE + 1) 0⟩, 0⟩))
      = (.error (.InvalidMessage (frameTooLargeMsg
          (serializeMessage (.ClipboardSync ⟨0, 0, ⟨[]⟩, ⟨[], List.replicate (MAX_MESSAGE_SIZE + 1) 0⟩, 0⟩)).length)), []) := by
  have h : (serializeMessage (.ClipboardSync ⟨0, 0, ⟨[]⟩, ⟨[], List.replicate (MAX_MESSAGE_SIZE + 1) 0⟩, 0⟩)).length
      > MAX_MESSAGE_SIZE := by
    simp only [serializeMessage, uuidBytes, List.length_cons, List.length_append,
      List.length_replicate, List.length_nil, length_toBytesBE]
    decide
  exact ⟨h, (to_frame_applies_no_size_check _).1,
    (to_frame_applies_no_size_check _).2.2 h⟩

/-- Active pairing session (`PairingSession` in `protocol/pairing.rs`):
session id, ephemeral exchange secret and its public key.  The source
derives `ephemeral_public` from the secret on construction; the model
stores both fields, as the struct does. -/
structure PairingSession where
  session_id : Nat
  ephemeral_secret : Nat
  ephemeral_public : Nat
deriving DecidableEq

/-- `PairingSession::complete`: consume the ephemeral secret against the
peer's public key and derive the session key. -/
def PairingSession.complete (s : PairingSession) (peerPubkey : Nat) : SessionKey :=
  SessionKey.fromSharedSecret (diffieHellman s.ephemeral_secret peerPubkey)

/-- Device identity from `lib.rs`: 128-bit id, display name and the
long-term signing key. -/
structure DeviceIdentity where
  id : Nat
  name : String
  signing_key : SigningKey
deriving DecidableEq

/-- Paired device info kept by the sync server (`PairedDevice` in
`sync/server.rs`). -/
structure PairedDevice where
  device_id : Nat
  device_name : String
  session_key : SessionKey
deriving DecidableEq

/-- Events from the sync server (`SyncEvent` in `sync/server.rs`). -/
inductive SyncEvent where
  | PeerConnected (peer_id : Nat) (peer_name : String)
  | PeerDisconnected (peer_id : Nat)
  | MessageReceived (peer_id : Nat) (message : Message)
  | DevicePaired (device : PairedDevice)
deriving DecidableEq

/-- The shared mutable state one connection handler touches: the single
active-pairing-session slot and the paired-device table.  The table is a
`HashMap<Uuid, PairedDevice>` in the source, modelled as an association
list with replace-on-insert. -/
structure ServerState where
  activePairing : Option PairingSession
  pairedDevices : List (Nat × PairedDevice)
deriving DecidableEq

/-- `HashMap::insert` on the paired-device table: replaces any existing
entry with the same key. -/
def insertDevice (id : Nat) (dev : PairedDevice) (tbl : List (Nat × PairedDevice)) :
    List (Nat × PairedDevice) :=
  (id, dev) :: tbl.filter (fun p => p.1 != id)

/-- Everything observable from one run of the connection handler: the
handler's `Result`, the post state, the messages written back over the
connection, and the events sent to the server channel. -/
structure HandleResult where
  result : Except Error Unit
  state : ServerState
  sent : List Message
  events : List SyncEvent

/-- `SyncServer::handle_connection_with_pairing` from `sync/server.rs`,
after the single inbound frame has been read and parsed into `message`.
The `take()` on the active-pairing slot followed by the put-back on
mismatch is collapsed to its net effect on the slot. -/
def handleConnectionWithPairing (identity : DeviceIdentity) (st : ServerState)
    (message : Message) : HandleResult :=
  match message with
  | .PairRequest req =>
    match st.activePairing with
    | none =>
      { result := .error (.NotPaired "no active pairing session"),
        state := st, sent := [], events := [] }
    | some ps =>
      if req.session_id ≠ ps.session_id then
        { result := .error (.InvalidMessage "session ID mismatch"),
          state := { st with activePairing := some ps }, sent := [], events := [] }
      else
        let ourEphemeralPubkey := ps.ephemeral_public
        let sessionKey := ps.complete req.ephemeral_pubkey
        let signData := uuidBytes req.session_id ++ toBytesLE 32 ourEphemeralPubkey
          ++ toBytesLE 32 req.ephemeral_pubkey
        let signature := identity.signing_key.sign signData
        let accept : PairAcceptMessage :=
          { session_id := req.session_id, device_id := identity.id,
            device_name := identity.name, ephemeral_pubkey := ourEphemeralPubkey,
            identity_pubkey := identity.signing_key.verifyingKey,
            signature := signature }
        let pairedDevice : PairedDevice :=
          { device_id := req.device_id, device_name := req.device_name,
            session_key := sessionKey }
        { result := .ok (),
          state := ⟨none, insertDevice req.device_id pairedDevice st.pairedDevices⟩,
          sent := [.PairAccept accept],
          events := [.DevicePaired pairedDevice] }
  | .ClipboardSync syncMsg =>
    match st.pairedDevices.lookup syncMsg.sender_id with
    | some _ =>
      { result := .ok (), state := st, sent := [],
        events := [.MessageReceived syncMsg.sender_id (.ClipboardSync syncMsg)] }
    | none =>
      { result := .ok (), state := st, sent := [], events := [] }
  | _ => { result := .ok (), state := st, sent := [], events := [] }

/-- Mismatch branch of the handler in closed form. -/
theorem handle_pair_request_mismatch (identity : DeviceIdentity) (st : ServerState)
    (ps : PairingSession) (req : PairRequestMessage)
    (hactive : st.activePairing = some ps) (hne : req.session_id ≠ ps.session_id) :
    handleConnectionWithPairing identity st (.PairRequest req)
      = { result := .error (.InvalidMessage "session ID mismatch"),
          state := st, sent := [], events := [] } := by
  simp only [handleConnectionWithPairing, hactive]
  rw [if_pos hne, ← hactive]

/-- Matching branch of the handler in closed form. -/
theorem handle_pair_request_match (identity : DeviceIdentity) (st : ServerState)
    (ps : PairingSession) (req : PairRequestMessage)
    (hactive : st.activePairing = some ps) (heq : req.session_id = ps.session_id) :
    handleConnectionWithPairing identity st (.PairRequest req)
      = { result := .ok (),
          state := ⟨none, insertDevice req.device_id
            ⟨req.device_id, req.device_name, ps.complete req.ephemeral_pubkey⟩
            st.pairedDevices⟩,
          sent := [.PairAccept
            ⟨req.session_id, identity.id, identity.name, ps.ephemeral_public,
              identity.signing_key.verifyingKey,
              identity.signing_key.sign (uuidBytes req.session_id
                ++ toBytesLE 32 ps.ephemeral_public
                ++ toBytesLE 32 req.ephemeral_pubkey)⟩],
          events := [.DevicePaired
            ⟨req.device_id, req.device_name, ps.complete req.ephemeral_pubkey⟩] } := by
  simp only [handleConnectionWithPairing, hactive]
  rw [if_neg (not_not_intro heq)]

/-- C3: an inbound `PairRequest` whose session_id differs from the active
pairing session fails the connection with the session-mismatch
`InvalidMessage` error, the slot afterwards holds the original session
unchanged, no `PairedDevice` is inserted, no `PairAccept` is sent and no
event is emitted; the preserved session then accepts a subsequent
`PairRequest` carrying the correct session_id, sending a `PairAccept` and
inserting the peer in the device table. -/
theorem pair_request_mismatch_preserves_session (identity : DeviceIdentity)
    (st : ServerState) (ps : PairingSession) (req : PairRequestMessage)
    (hactive : st.activePairing = some ps) (hne : req.session_id ≠ ps.session_id) :
    (handleConnectionWithPairing identity st (.PairRequest req)).result
        = .error (.InvalidMessage "session ID mismatch") ∧
    (handleConnectionWithPairing identity st (.PairRequest req)).state = st ∧
    (handleConnectionWithPairing identity st (.PairRequest req)).sent = [] ∧
    (handleConnectionWithPairing identity st (.PairRequest req)).events = [] ∧
    (∀ req₂ : PairRequestMessage, req₂.session_id = ps.session_id →
      (handleConnectionWithPairing identity
          (handleConnectionWithPairing identity st (.PairRequest req)).state
          (.PairRequest req₂)).result = .ok () ∧
      (∃ acc : PairAcceptMessage,
        (handleConnectionWithPairing identity
            (handleConnectionWithPairing identity st (.PairRequest req)).state
            (.PairRequest req₂)).sent = [.PairAccept acc]) ∧
      ((handleConnectionWithPairing identity
          (handleConnectionWithPairing identity st (.PairRequest req)).state
          (.PairRequest req₂)).state.pairedDevices).lookup req₂.device_id
        = some ⟨req₂.device_id, req₂.device_name, ps.complete req₂.ephemeral_pubkey⟩) := by
  have hrun := handle_pair_request_mismatch identity st ps req hactive hne
  refine ⟨by simp only [hrun], by simp only [hrun], by simp only [hrun],
    by simp only [hrun], ?_⟩
  intro req₂ heq
  have hrun₂ := handle_pair_request_match identity st ps req₂ hactive heq
  refine ⟨?_, ?_, ?_⟩
  · simp only [hrun, hrun₂]
  · exact ⟨⟨req₂.session_id, identity.id, identity.name, ps.ephemeral_public,
      identity.signing_key.verifyingKey,
      identity.signing_key.sign (uuidBytes req₂.session_id
        ++ toBytesLE 32 ps.ephemeral_public ++ toBytesLE 32 req₂.ephemeral_pubkey)⟩,
      by simp only [hrun, hrun₂]⟩
  · simp only [hrun, hrun₂]
    simp [insertDevice, List.lookup]

/-- Witness for the C3 theorem at a concrete state and request pair. -/
theorem pair_request_mismatch_preserves_session_witness :
    ((ServerState.mk (some ⟨0, 11, 12⟩) []).activePairing = some ⟨0, 11, 12⟩ ∧
      (PairRequestMessage.mk 1 5 "peer" 3 ⟨9⟩).session_id
        ≠ (PairingSession.mk 0 11 12).session_id) ∧
    (handleConnectionWithPairing ⟨0, "responder", ⟨4⟩⟩ ⟨some ⟨0, 11, 12⟩, []⟩
        (.PairRequest ⟨1, 5, "peer", 3, ⟨9⟩⟩)).state = ⟨some ⟨0, 11, 12⟩, []⟩ :=
  ⟨⟨rfl, by decide⟩,
    (pair_request_mismatch_preserves_session ⟨0, "responder", ⟨4⟩⟩ ⟨some ⟨0, 11, 12⟩, []⟩
      ⟨0, 11, 12⟩ ⟨1, 5, "peer", 3, ⟨9⟩⟩ rfl (by decide)).2.1⟩

/-- C7: on a matching `PairRequest` the responder's `PairAccept` carries a
signature by the long-term signing key over exactly
session_id bytes (16) ‖ responder ephemeral public key (32) ‖ requester
ephemeral public key (32), in that order, and that signature verifies
under the responder's identity verifying key. -/
theorem pair_accept_signature_binds_transcript (identity : DeviceIdentity)
    (st : ServerState) (ps : PairingSession) (req : PairRequestMessage)
    (hactive : st.activePairing = some ps) (heq : req.session_id = ps.session_id) :
    ∃ acc : PairAcceptMessage,
      (handleConnectionWithPairing identity st (.PairRequest req)).sent
        = [.PairAccept acc] ∧
      acc.signature = identity.signing_key.sign
        (uuidBytes req.session_id ++ toBytesLE 32 ps.ephemeral_public
          ++ toBytesLE 32 req.ephemeral_pubkey) ∧
      acc.identity_pubkey = identity.signing_key.verifyingKey ∧
      identity.signing_key.verifyingKey.verify
        (uuidBytes req.session_id ++ toBytesLE 32 ps.ephemeral_public
          ++ toBytesLE 32 req.ephemeral_pubkey)
        acc.signature = .ok () := by
  have hrun := handle_pair_request_match identity st ps req hactive heq
  exact ⟨⟨req.session_id, identity.id, identity.name, ps.ephemeral_public,
    identity.signing_key.verifyingKey,
    identity.signing_key.sign (uuidBytes req.session_id
      ++ toBytesLE 32 ps.ephemeral_public ++ toBytesLE 32 req.ephemeral_pubkey)⟩,
    by simp only [hrun], rfl, rfl, verify_sign _ _⟩

/-- Witness for the C7 theorem at a concrete matching request. -/
theorem pair_accept_signature_binds_transcript_witness :
    ((ServerState.mk (some ⟨0, 11, 12⟩) []).activePairing = some ⟨0, 11, 12⟩ ∧
      (PairRequestMessage.mk 0 5 "peer" 3 ⟨9⟩).session_id
        = (PairingSession.mk 0 11 12).session_id) ∧
    (∃ acc : PairAcceptMessage,
      (handleConnectionWithPairing ⟨0, "responder", ⟨4⟩⟩ ⟨some ⟨0, 11, 12⟩, []⟩
          (.PairRequest ⟨0, 5, "peer", 3, ⟨9⟩⟩)).sent = [.PairAccept acc] ∧
      acc.signature = (SigningKey.mk 4).sign
        (uuidBytes (PairRequestMessage.mk 0 5 "peer" 3 ⟨9⟩).session_id
          ++ toBytesLE 32 (PairingSession.mk 0 11 12).ephemeral_public
          ++ toBytesLE 32 (PairRequestMessage.mk 0 5 "peer" 3 ⟨9⟩).ephemeral_pubkey) ∧
      acc.identity_pubkey = (SigningKey.mk 4).verifyingKey ∧
      (SigningKey.mk 4).verifyingKey.verify
        (uuidBytes (PairRequestMessage.mk 0 5 "peer" 3 ⟨9⟩).session_id
          ++ toBytesLE 32 (PairingSession.mk 0 11 12).ephemeral_public
          ++ toBytesLE 32 (PairRequestMessage.mk 0 5 "peer" 3 ⟨9⟩).ephemeral_pubkey)
        acc.signature = .ok ()) :=
  ⟨⟨rfl, rfl⟩,
    pair_accept_signature_binds_transcript ⟨0, "responder", ⟨4⟩⟩ ⟨some ⟨0, 11, 12⟩, []⟩
      ⟨0, 11, 12⟩ ⟨0, 5, "peer", 3, ⟨9⟩⟩ rfl rfl⟩

/-- Events emitted by the Omniclip service (`ServiceEvent` in
`service.rs`); the payload of `DeviceDiscovered` is simplified to the
peer id. -/
inductive ServiceEvent where
  | DeviceDiscovered (peer_id : Nat)
  | DeviceLost (id : Nat)
  | PairingRequest (device_id : Nat) (device_name : String)
  | ClipboardReceived (from_device : Nat) (content : ClipboardContent)
  | ClipboardSent (to_devices : List Nat)
  | Error (msg : String)
deriving DecidableEq

/-- Paired device info stored by the service (`PairedDeviceInfo` in
`service.rs`; its `last_seen : Instant` field is wall-clock bookkeeping
outside the model). -/
structure PairedDeviceInfo where
  device_id : Nat
  device_name : String
  session_key : SessionKey
deriving DecidableEq

/-- A clipboard change notification from the monitor (`ClipboardChange`
in `clipboard/mod.rs`). -/
structure ClipboardChange where
  content : ClipboardContent
  hash : ContentHash
deriving DecidableEq

/-- Stand-in for `serde_json::to_vec` on clipboard content
(`ClipboardContent::to_bytes`), the plaintext handed to the AEAD. -/
def serializeContent : ClipboardContent → List Nat
  | .Text text => 0 :: strBytes text
  | .RichText plain html =>
      1 :: toBytesBE 8 plain.length ++ strBytes plain ++ strBytes html

/-- The per-device loop body of the clipboard-monitoring task in
`OmniclipService::start`: one `ClipboardSync` message per paired device,
whose content is encrypted under that device's own session key.  `i` is
the iteration index; `nonces i` and `msgIds i` are the random nonce and
message id drawn in iteration `i`, `now` the timestamp. -/
def buildSyncMessages (ourId : Nat) (nonces msgIds : Nat → Nat) (now : Nat)
    (change : ClipboardChange) :
    List (Nat × PairedDeviceInfo) → Nat → List (Nat × ClipboardSyncMessage)
  | [], _ => []
  | (id, dev) :: rest, i =>
    (id, { message_id := msgIds i, sender_id := ourId, content_hash := change.hash,
           encrypted_content := encryptPayload dev.session_key (nonces i)
             (serializeContent change.content),
           timestamp := now })
      :: buildSyncMessages ourId nonces msgIds now change rest (i + 1)

/-- One iteration of the clipboard-monitoring task in
`OmniclipService::start` (`service.rs`), handling one change
notification: `lastSent` is the `last_sent_hash` slot and `paired` the
paired-device table snapshot.  Returns the new slot value, the service
events emitted, and the `ClipboardSync` messages built per targeted
device (the source constructs them but does not transmit them). -/
def clipboardStep (ourId : Nat) (paired : List (Nat × PairedDeviceInfo))
    (nonces msgIds : Nat → Nat) (now : Nat) (lastSent : Option ContentHash)
    (change : ClipboardChange) :
    Option ContentHash × List ServiceEvent × List (Nat × ClipboardSyncMessage) :=
  if lastSent = some change.hash then
    (lastSent, [], [])
  else
    let msgs := buildSyncMessages ourId nonces msgIds now change paired 0
    let sentTo := msgs.map Prod.fst
    if sentTo = [] then (lastSent, [], msgs)
    else (some change.hash, [.ClipboardSent sentTo], msgs)

theorem map_fst_buildSyncMessages (ourId : Nat) (nonces msgIds : Nat → Nat)
    (now : Nat) (change : ClipboardChange) (l : List (Nat × PairedDeviceInfo)) :
    ∀ i, (buildSyncMessages ourId nonces msgIds now change l i).map Prod.fst
      = l.map Prod.fst := by
  induction l with
  | nil => intro i; rfl
  | cons p rest ih => intro i; simp [buildSyncMessages, ih]

theorem buildSyncMessages_eq_enumFrom (ourId : Nat) (nonces msgIds : Nat → Nat)
    (now : Nat) (change : ClipboardChange) (l : List (Nat × PairedDeviceInfo)) :
    ∀ i, buildSyncMessages ourId nonces msgIds now change l i
      = (l.enumFrom i).map (fun p =>
          (p.2.1, { message_id := msgIds p.1, sender_id := ourId,
                    content_hash := change.hash,
                    encrypted_content := encryptPayload p.2.2.session_key (nonces p.1)
                      (serializeContent change.content),
                    timestamp := now })) := by
  induction l with
  | nil => intro i; rfl
  | cons p rest ih => intro i; simp [buildSyncMessages, List.enumFrom, ih]

/-- C9 counterexample: with no paired devices, a fresh change (hash
differing from the recorded last-sent hash) leaves the last-sent slot
unchanged and emits no `ClipboardSent` event, contrary to the claim that
the new hash is recorded and an event is emitted. -/
theorem clipboard_step_counterexample :
    (none : Option ContentHash) ≠ some (ClipboardContent.Text "hello").hash ∧
    (clipboardStep 0 [] (fun _ => 0) (fun _ => 0) 0 none
      ⟨.Text "hello", (ClipboardContent.Text "hello").hash⟩).1 = none ∧
    (clipboardStep 0 [] (fun _ => 0) (fun _ => 0) 0 none
      ⟨.Text "hello", (ClipboardContent.Text "hello").hash⟩).2.1 = [] := by
  refine ⟨by simp, rfl, rfl⟩

/-- C9 amended: if the change's hash equals the recorded last-sent hash
the change is suppressed (no encryption, no event, slot unchanged);
otherwise, when at least one device is paired, one `ClipboardSync` is
built per paired device with the content encrypted under that device's
own session key, the new hash is recorded, and a `ClipboardSent` event
reporting the targeted peer ids is emitted; with no paired devices
nothing is encrypted, the slot is left unchanged and no event is
emitted. -/
theorem clipboard_step_dedup_and_fanout (ourId : Nat)
    (paired : List (Nat × PairedDeviceInfo)) (nonces msgIds : Nat → Nat)
    (now : Nat) (lastSent : Option ContentHash) (change : ClipboardChange) :
    (lastSent = some change.hash →
      clipboardStep ourId paired nonces msgIds now lastSent change
        = (lastSent, [], [])) ∧
    (lastSent ≠ some change.hash → paired ≠ [] →
      clipboardStep ourId paired nonces msgIds now lastSent change
        = (some change.hash, [.ClipboardSent (paired.map Prod.fst)],
           (paired.enumFrom 0).map (fun p =>
             (p.2.1, { message_id := msgIds p.1, sender_id := ourId,
                       content_hash := change.hash,
                       encrypted_content := encryptPayload p.2.2.session_key (nonces p.1)
                         (serializeContent change.content),
                       timestamp := now })))) ∧
    (lastSent ≠ some change.hash → paired = [] →
      clipboardStep ourId paired nonces msgIds now lastSent change
        = (lastSent, [], [])) := by
  refine ⟨fun heq => ?_, fun hne hp => ?_, fun hne hp => ?_⟩
  · unfold clipboardStep
    rw [if_pos heq]
  · unfold clipboardStep
    rw [if_neg hne]
    simp only [map_fst_buildSyncMessages]
    rw [if_neg (by simpa using hp), buildSyncMessages_eq_enumFrom]
  · subst hp
    unfold clipboardStep
    rw [if_neg hne]
    simp [buildSyncMessages]

/-- Witness for the amended C9 theorem: a suppressed change, a fanout to
one paired device, and a fresh change with no paired devices. -/
theorem clipboard_step_dedup_and_fanout_witness :
    (some (ClipboardContent.Text "a").hash
        = some (ClipboardChange.mk (.Text "a") (ClipboardContent.Text "a").hash).hash ∧
      clipboardStep 0 [(5, ⟨5, "d", ⟨[1]⟩⟩)] (fun _ => 0) (fun _ => 0) 0
          (some (ClipboardContent.Text "a").hash)
          ⟨.Text "a", (ClipboardContent.Text "a").hash⟩
        = (some (ClipboardContent.Text "a").hash, [], [])) ∧
    ((none : Option ContentHash)
        ≠ some (ClipboardChange.mk (.Text "a") (ClipboardContent.Text "a").hash).hash ∧
      ([(5, PairedDeviceInfo.mk 5 "d" ⟨[1]⟩)] : List (Nat × PairedDeviceInfo)) ≠ [] ∧
      clipboardStep 0 [(5, ⟨5, "d", ⟨[1]⟩⟩)] (fun _ => 0) (fun _ => 0) 0 none
          ⟨.Text "a", (ClipboardContent.Text "a").hash⟩
        = (some (ClipboardContent.Text "a").hash,
           [.ClipboardSent ([(5, (PairedDeviceInfo.mk 5 "d" ⟨[1]⟩))].map Prod.fst)],
           (([(5, (PairedDeviceInfo.mk 5 "d" ⟨[1]⟩))].enumFrom 0).map (fun p =>
             (p.2.1, { message_id := (fun _ => 0) p.1, sender_id := 0,
                       content_hash := (ClipboardChange.mk (.Text "a")
                         (ClipboardContent.Text "a").hash).hash,
                       encrypted_content := encryptPayload p.2.2.session_key
                         ((fun _ => 0) p.1)
                         (serializeContent (ClipboardChange.mk (.Text "a")
                           (ClipboardContent.Text "a").hash).content),
                       timestamp := 0 }))))) ∧
    (clipboardStep 0 [] (fun _ => 0) (fun _ => 0) 0 none
        ⟨.Text "a", (ClipboardContent.Text "a").hash⟩ = (none, [], [])) :=
  ⟨⟨rfl, (clipboard_step_dedup_and_fanout 0 [(5, ⟨5, "d", ⟨[1]⟩⟩)] (fun _ => 0)
      (fun _ => 0) 0 (some (ClipboardContent.Text "a").hash)
      ⟨.Text "a", (ClipboardContent.Text "a").hash⟩).1 rfl⟩,
   ⟨by simp, by simp, (clipboard_step_dedup_and_fanout 0 [(5, ⟨5, "d", ⟨[1]⟩⟩)]
      (fun _ => 0) (fun _ => 0) 0 none
      ⟨.Text "a", (ClipboardContent.Text "a").hash⟩).2.1 (by simp) (by simp)⟩,
   (clipboard_step_dedup_and_fanout 0 [] (fun _ => 0) (fun _ => 0) 0 none
      ⟨.Text "a", (ClipboardContent.Text "a").hash⟩).2.2 (by simp) rfl⟩

/-- Character of a 6-bit value in the URL-safe base64 alphabet
(`base64::engine::general_purpose::URL_SAFE_NO_PAD`). -/
def b64Chr (n : Nat) : Char :=
  if n < 26 then Char.ofNat (65 + n)
  else if n < 52 then Char.ofNat (71 + n)
  else if n < 62 then Char.ofNat (n - 4)
  else if n = 62 then '-'
  else '_'

/-- Value of a character in the URL-safe base64 alphabet. -/
def b64Val (c : Char) : Option Nat :=
  if 65 ≤ c.toNat ∧ c.toNat ≤ 90 then some (c.toNat - 65)
  else if 97 ≤ c.toNat ∧ c.toNat ≤ 122 then some (c.toNat - 71)
  else if 48 ≤ c.toNat ∧ c.toNat ≤ 57 then some (c.toNat + 4)
  else if c = '-' then some 62
  else if c = '_' then some 63
  else none

theorem b64Val_b64Chr : ∀ n < 64, b64Val (b64Chr n) = some n := by decide

theorem b64Chr_ne_amp_eq : ∀ n < 64, b64Chr n ≠ '&' ∧ b64Chr n ≠ '=' := by decide

/-- URL-safe unpadded base64 encoding of a byte sequence, as the base64
crate's `URL_SAFE_NO_PAD` engine produces it: 6-bit groups, a 3-byte
quantum per 4 characters, trailing bits zero. -/
def b64urlEncode : List Nat → List Char
  | [] => []
  | [a] => [b64Chr (a / 4), b64Chr (a % 4 * 16)]
  | [a, b] => [b64Chr (a / 4), b64Chr (a % 4 * 16 + b / 16), b64Chr (b % 16 * 4)]
  | a :: b :: c :: rest =>
    b64Chr (a / 4) :: b64Chr (a % 4 * 16 + b / 16)
      :: b64Chr (b % 16 * 4 + c / 64) :: b64Chr (c % 64)
      :: b64urlEncode rest

/-- URL-safe unpadded base64 decoding: rejects characters outside the
alphabet, a trailing quantum of one character, and nonzero trailing bits
(the engine's default `decode_allow_trailing_bits = false`). -/
def b64Decode : List Char → Option (List Nat)
  | [] => some []
  | [_] => none
  | [c₁, c₂] =>
    match b64Val c₁, b64Val c₂ with
    | some v₁, some v₂ =>
      if v₂ % 16 = 0 then some [v₁ * 4 + v₂ / 16] else none
    | _, _ => none
  | [c₁, c₂, c₃] =>
    match b64Val c₁, b64Val c₂, b64Val c₃ with
    | some v₁, some v₂, some v₃ =>
      if v₃ % 4 = 0 then some [v₁ * 4 + v₂ / 16, v₂ % 16 * 16 + v₃ / 4] else none
    | _, _, _ => none
  | c₁ :: c₂ :: c₃ :: c₄ :: rest =>
    match b64Val c₁, b64Val c₂, b64Val c₃, b64Val c₄, b64Decode rest with
    | some v₁, some v₂, some v₃, some v₄, some bs =>
      some ((v₁ * 4 + v₂ / 16) :: (v₂ % 16 * 16 + v₃ / 4) :: (v₃ % 4 * 64 + v₄) :: bs)
    | _, _, _, _, _ => none

theorem b64Decode_b64urlEncode :
    ∀ bs : List Nat, (∀ b ∈ bs, b < 256) → b64Decode (b64urlEncode bs) = some bs := by
  intro bs
  induction bs using b64urlEncode.induct with
  | case1 => intro _; rfl
  | case2 a =>
    intro h
    have ha : a < 256 := h a (by simp)
    simp only [b64urlEncode, b64Decode]
    rw [b64Val_b64Chr _ (by omega), b64Val_b64Chr _ (by omega)]
    simp only [if_pos (by omega : a % 4 * 16 % 16 = 0), Option.some.injEq,
      List.cons.injEq, and_true]
    omega
  | case3 a b =>
    intro h
    have ha : a < 256 := h a (by simp)
    have hb : b < 256 := h b (by simp)
    simp only [b64urlEncode, b64Decode]
    rw [b64Val_b64Chr _ (by omega), b64Val_b64Chr _ (by omega),
      b64Val_b64Chr _ (by omega)]
    simp only [if_pos (by omega : b % 16 * 4 % 4 = 0), Option.some.injEq,
      List.cons.injEq, and_true]
    omega
  | case4 a b c rest ih =>
    intro h
    have ha : a < 256 := h a (by simp)
    have hb : b < 256 := h b (by simp)
    have hc : c < 256 := h c (by simp)
    have hrest : ∀ x ∈ rest, x < 256 := fun x hx => h x (by simp [hx])
    simp only [b64urlEncode, b64Decode]
    rw [b64Val_b64Chr _ (by omega), b64Val_b64Chr _ (by omega),
      b64Val_b64Chr _ (by omega), b64Val_b64Chr _ (by omega), ih hrest]
    simp only [Option.some.injEq, List.cons.injEq, and_true]
    refine ⟨by omega, by omega, by omega⟩

/-- Every character the base64url encoder emits lies in the URL-safe
alphabet, hence is neither `&` nor `=`. -/
theorem b64urlEncode_safe :
    ∀ bs : List Nat, (∀ b ∈ bs, b < 256) →
      ∀ ch ∈ b64urlEncode bs, ch ≠ '&' ∧ ch ≠ '=' := by
  intro bs
  induction bs using b64urlEncode.induct with
  | case1 => intro _ ch hch; simp [b64urlEncode] at hch
  | case2 a =>
    intro h ch hch
    have ha : a < 256 := h a (by simp)
    simp only [b64urlEncode, List.mem_cons, List.not_mem_nil, or_false] at hch
    rcases hch with rfl | rfl
    · exact b64Chr_ne_amp_eq _ (by omega)
    · exact b64Chr_ne_amp_eq _ (by omega)
  | case3 a b =>
    intro h ch hch
    have ha : a < 256 := h a (by simp)
    have hb : b < 256 := h b (by simp)
    simp only [b64urlEncode, List.mem_cons, List.not_mem_nil, or_false] at hch
    rcases hch with rfl | rfl | rfl
    · exact b64Chr_ne_amp_eq _ (by omega)
    · exact b64Chr_ne_amp_eq _ (by omega)
    · exact b64Chr_ne_amp_eq _ (by omega)
  | case4 a b c rest ih =>
    intro h ch hch
    have ha : a < 256 := h a (by simp)
    have hb : b < 256 := h b (by simp)
    have hc : c < 256 := h c (by simp)
    have hrest : ∀ x ∈ rest, x < 256 := fun x hx => h x (by simp [hx])
    simp only [b64urlEncode, List.mem_cons] at hch
    rcases hch with rfl | rfl | rfl | rfl | hmem
    · exact b64Chr_ne_amp_eq _ (by omega)
    · exact b64Chr_ne_amp_eq _ (by omega)
    · exact b64Chr_ne_amp_eq _ (by omega)
    · exact b64Chr_ne_amp_eq _ (by omega)
    · exact ih hrest ch hmem

/-- Bytes the urlencoding crate leaves unescaped: ASCII alphanumerics and
`-`, `.`, `_`, `~`. -/
def unreservedByte (b : Nat) : Bool :=
  (48 ≤ b && b ≤ 57) || (65 ≤ b && b ≤ 90) || (97 ≤ b && b ≤ 122)
    || b == 45 || b == 46 || b == 95 || b == 126

/-- Uppercase hex digit (the crate emits uppercase escapes). -/
def hexDigitU (n : Nat) : Char :=
  if n < 10 then Char.ofNat (48 + n) else Char.ofNat (55 + n)

/-- Hex digit value, accepting either case. -/
def hexValAny (c : Char) : Option Nat :=
  if 48 ≤ c.toNat ∧ c.toNat ≤ 57 then some (c.toNat - 48)
  else if 65 ≤ c.toNat ∧ c.toNat ≤ 70 then some (c.toNat - 55)
  else if 97 ≤ c.toNat ∧ c.toNat ≤ 102 then some (c.toNat - 87)
  else none

/-- `urlencoding::encode` over the UTF-8 bytes of a string: unreserved
bytes pass through, every other byte becomes a `%XX` escape. -/
def percentEncode : List Nat → List Char
  | [] => []
  | b :: bs =>
    (if unreservedByte b then [Char.ofNat b]
     else ['%', hexDigitU (b / 16 % 16), hexDigitU (b % 16)]) ++ percentEncode bs

/-- `urlencoding::decode` back to bytes: `%` followed by two hex digits
decodes to that byte; malformed escapes pass through literally, as the
crate does.  The crate's final UTF-8 re-validation never fires on a
roundtrip of a valid string and is not modelled. -/
def percentDecode : List Char → List Nat
  | [] => []
  | c :: c₁ :: c₂ :: rest₂ =>
    if c = '%' then
      match hexValAny c₁, hexValAny c₂ with
      | some hi, some lo => (hi * 16 + lo) :: percentDecode rest₂
      | _, _ => 37 :: percentDecode (c₁ :: c₂ :: rest₂)
    else c.toNat :: percentDecode (c₁ :: c₂ :: rest₂)
  | c :: rest =>
    if c = '%' then 37 :: percentDecode rest else c.toNat :: percentDecode rest

theorem percentDecode_not_pct {c : Char} (rest : List Char) (h : c ≠ '%') :
    percentDecode (c :: rest) = c.toNat :: percentDecode rest := by
  match rest with
  | [] => simp [percentDecode, if_neg h]
  | [c₁] => simp [percentDecode, if_neg h]
  | c₁ :: c₂ :: rest₂ => simp [percentDecode, if_neg h]

theorem percentDecode_escape {c₁ c₂ : Char} {hi lo : Nat} (rest₂ : List Char)
    (h₁ : hexValAny c₁ = some hi) (h₂ : hexValAny c₂ = some lo) :
    percentDecode ('%' :: c₁ :: c₂ :: rest₂) = (hi * 16 + lo) :: percentDecode rest₂ := by
  simp [percentDecode, h₁, h₂]

set_option maxRecDepth 4000 in
theorem unreserved_char_facts :
    ∀ b < 256, unreservedByte b = true →
      Char.ofNat b ≠ '%' ∧ Char.ofNat b ≠ '&' ∧ Char.ofNat b ≠ '='
        ∧ (Char.ofNat b).toNat = b := by decide

theorem hexDigitU_facts :
    ∀ n < 16, hexValAny (hexDigitU n) = some n
      ∧ hexDigitU n ≠ '&' ∧ hexDigitU n ≠ '=' := by decide

theorem percentDecode_percentEncode :
    ∀ bs : List Nat, (∀ b ∈ bs, b < 256) → percentDecode (percentEncode bs) = bs := by
  intro bs
  induction bs with
  | nil => intro _; rfl
  | cons b rest ih =>
    intro h
    have hb : b < 256 := h b (by simp)
    have hrest : ∀ x ∈ rest, x < 256 := fun x hx => h x (by simp [hx])
    by_cases hu : unreservedByte b = true
    · obtain ⟨hpct, _, _, htn⟩ := unreserved_char_facts b hb hu
      rw [percentEncode, if_pos hu, List.singleton_append,
        percentDecode_not_pct _ hpct, htn, ih hrest]
    · rw [percentEncode, if_neg hu, List.cons_append, List.cons_append,
        List.singleton_append,
        percentDecode_escape _ (hexDigitU_facts (b / 16 % 16) (by omega)).1
          (hexDigitU_facts (b % 16) (by omega)).1, ih hrest]
      simp only [List.cons.injEq, and_true]
      omega

theorem percentEncode_safe :
    ∀ bs : List Nat, (∀ b ∈ bs, b < 256) →
      ∀ ch ∈ percentEncode bs, ch ≠ '&' ∧ ch ≠ '=' := by
  intro bs
  induction bs with
  | nil => intro _ ch hch; simp [percentEncode] at hch
  | cons b rest ih =>
    intro h ch hch
    have hb : b < 256 := h b (by simp)
    have hrest : ∀ x ∈ rest, x < 256 := fun x hx => h x (by simp [hx])
    simp only [percentEncode, List.mem_append] at hch
    rcases hch with hch | hch
    · by_cases hu : unreservedByte b = true
      · rw [if_pos hu] at hch
        simp only [List.mem_singleton] at hch
        subst hch
        exact ⟨(unreserved_char_facts b hb hu).2.1, (unreserved_char_facts b hb hu).2.2.1⟩
      · rw [if_neg hu] at hch
        simp only [List.mem_cons, List.not_mem_nil, or_false] at hch
        rcases hch with rfl | rfl | rfl
        · exact ⟨by decide, by decide⟩
        · exact ⟨(hexDigitU_facts (b / 16 % 16) (by omega)).2.1,
            (hexDigitU_facts (b / 16 % 16) (by omega)).2.2⟩
        · exact ⟨(hexDigitU_facts (b % 16) (by omega)).2.1,
            (hexDigitU_facts (b % 16) (by omega)).2.2⟩
    · exact ih hrest ch hch

/-- Decimal digit character. -/
def digitChr (d : Nat) : Char := Char.ofNat (48 + d)

/-- Decimal rendering of a number (`u16` `Display`): most significant
digit first, `"0"` for zero. -/
def natToChars (n : Nat) : List Char :=
  if n = 0 then ['0'] else (Nat.digits 10 n).reverse.map digitChr

/-- Decimal digit value. -/
def decVal (c : Char) : Option Nat :=
  if 48 ≤ c.toNat ∧ c.toNat ≤ 57 then some (c.toNat - 48) else none

/-- `str::parse::<u16>`: all-digit strings up to 65535, rejecting the
empty string, non-digits and overflow. -/
def parseU16 (l : List Char) : Option Nat :=
  if l = [] then none
  else
    match l.mapM decVal with
    | some ds =>
      if ds.foldl (fun a d => a * 10 + d) 0 ≤ 65535 then
        some (ds.foldl (fun a d => a * 10 + d) 0)
      else none
    | none => none

theorem decVal_digitChr : ∀ d < 10, decVal (digitChr d) = some d := by decide

theorem digitChr_safe : ∀ d < 10, digitChr d ≠ '&' ∧ digitChr d ≠ '='
    ∧ digitChr d ≠ '-' := by decide

theorem mapM_decVal_digits :
    ∀ ds : List Nat, (∀ d ∈ ds, d < 10) → (ds.map digitChr).mapM decVal = some ds := by
  intro ds
  induction ds with
  | nil => intro _; rfl
  | cons d rest ih =>
    intro h
    have hd : d < 10 := h d (by simp)
    have hrest : ∀ x ∈ rest, x < 10 := fun x hx => h x (by simp [hx])
    simp only [List.map_cons, List.mapM_cons, decVal_digitChr d hd, ih hrest]
    rfl

theorem foldr_base10 :
    ∀ l : List Nat, l.foldr (fun d a => a * 10 + d) 0 = Nat.ofDigits 10 l := by
  intro l
  induction l with
  | nil => rfl
  | cons d rest ih =>
    simp only [List.foldr_cons, ih, Nat.ofDigits_cons]
    ring

theorem parseU16_natToChars (p : Nat) (hp : p < 65536) :
    parseU16 (natToChars p) = some p := by
  by_cases hz : p = 0
  · subst hz; rfl
  · have hdig : ∀ d ∈ (Nat.digits 10 p).reverse, d < 10 := by
      intro d hd
      rw [List.mem_reverse] at hd
      exact Nat.digits_lt_base (by norm_num) hd
    have hne : (Nat.digits 10 p).reverse.map digitChr ≠ [] := by
      simp [Nat.digits_ne_nil_iff_ne_zero, hz]
    have hfold : ((Nat.digits 10 p).reverse).foldl (fun a d => a * 10 + d) 0 = p := by
      rw [List.foldl_reverse]
      have : (Nat.digits 10 p).foldr (fun d a => a * 10 + d) 0 = p := by
        rw [foldr_base10, Nat.ofDigits_digits]
      exact this
    unfold natToChars parseU16
    rw [if_neg hz, if_neg hne]
    simp only [mapM_decVal_digits _ hdig]
    rw [hfold, if_pos (by omega)]

theorem natToChars_safe (p : Nat) :
    ∀ ch ∈ natToChars p, ch ≠ '&' ∧ ch ≠ '=' := by
  intro ch hch
  unfold natToChars at hch
  by_cases hz : p = 0
  · rw [if_pos hz] at hch
    simp only [List.mem_singleton] at hch
    subst hch
    exact ⟨by decide, by decide⟩
  · rw [if_neg hz] at hch
    simp only [List.mem_map] at hch
    obtain ⟨d, hd, rfl⟩ := hch
    rw [List.mem_reverse] at hd
    have := Nat.digits_lt_base (by norm_num) hd
    exact ⟨(digitChr_safe d this).1, (digitChr_safe d this).2.1⟩

/-- Lowercase hex digit (the uuid crate's `Display` is lowercase hex). -/
def hexDigitL (n : Nat) : Char :=
  if n < 10 then Char.ofNat (48 + n) else Char.ofNat (87 + n)

/-- Fixed-width big-endian hex rendering of `n` with `k` digits. -/
def hexFixed : Nat → Nat → List Char
  | 0, _ => []
  | k + 1, n => hexFixed k (n / 16) ++ [hexDigitL (n % 16)]

/-- Left-to-right accumulator pass of a hex parser. -/
def parseHexCore : Nat → List Char → Option Nat
  | acc, [] => some acc
  | acc, c :: rest =>
    match hexValAny c with
    | some v => parseHexCore (acc * 16 + v) rest
    | none => none

/-- Hex parsing of a fixed-width group. -/
def parseHexFixed (l : List Char) : Option Nat := parseHexCore 0 l

theorem hexDigitL_facts : ∀ n < 16, hexValAny (hexDigitL n) = some n
    ∧ hexDigitL n ≠ '&' ∧ hexDigitL n ≠ '=' ∧ hexDigitL n ≠ '-' := by decide

@[simp] theorem length_hexFixed (k n : Nat) : (hexFixed k n).length = k := by
  induction k generalizing n with
  | zero => rfl
  | succ k ih => simp [hexFixed, ih]

theorem parseHexCore_append (l₁ l₂ : List Char) :
    ∀ acc, parseHexCore acc (l₁ ++ l₂)
      = match parseHexCore acc l₁ with
        | some a => parseHexCore a l₂
        | none => none := by
  induction l₁ with
  | nil => intro acc; rfl
  | cons c rest ih =>
    intro acc
    simp only [List.cons_append, parseHexCore]
    cases hexValAny c with
    | some v => exact ih (acc * 16 + v)
    | none => rfl

theorem parseHexCore_hexFixed (k : Nat) :
    ∀ n acc, n < 16 ^ k → parseHexCore acc (hexFixed k n) = some (acc * 16 ^ k + n) := by
  induction k with
  | zero =>
    intro n acc h
    interval_cases n
    simp [hexFixed, parseHexCore]
  | succ k ih =>
    intro n acc h
    have hdiv : n / 16 < 16 ^ k := by
      rw [pow_succ'] at h
      exact Nat.div_lt_of_lt_mul h
    rw [hexFixed, parseHexCore_append, ih (n / 16) acc hdiv]
    simp only [parseHexCore, (hexDigitL_facts (n % 16) (by omega)).1]
    have heq : (acc * 16 ^ k + n / 16) * 16 + n % 16
        = acc * (16 ^ k * 16) + (n / 16 * 16 + n % 16) := by ring
    rw [heq, pow_succ]
    simp only [Option.some.injEq]
    omega

theorem parseHexFixed_hexFixed {k n : Nat} (h : n < 16 ^ k) :
    parseHexFixed (hexFixed k n) = some n := by
  unfold parseHexFixed
  rw [parseHexCore_hexFixed k n 0 h]
  simp

theorem hexFixed_safe (k n : Nat) :
    ∀ ch ∈ hexFixed k n, ch ≠ '&' ∧ ch ≠ '=' ∧ ch ≠ '-' := by
  induction k generalizing n with
  | zero => intro ch hch; simp [hexFixed] at hch
  | succ k ih =>
    intro ch hch
    simp only [hexFixed, List.mem_append, List.mem_singleton] at hch
    rcases hch with hch | rfl
    · exact ih (n / 16) ch hch
    · exact ⟨(hexDigitL_facts (n % 16) (by omega)).2.1,
        (hexDigitL_facts (n % 16) (by omega)).2.2.1,
        (hexDigitL_facts (n % 16) (by omega)).2.2.2⟩

/-- `str::split` on a separator character: the list of groups between
occurrences of the separator (never empty; adjacent separators and ends
yield empty groups), as Rust's `split` iterator yields them. -/
def splitOnChar (sep : Char) : List Char → List (List Char)
  | [] => [[]]
  | c :: rest =>
    if c = sep then [] :: splitOnChar sep rest
    else
      match splitOnChar sep rest with
      | [] => [[c]]
      | group :: groups => (c :: group) :: groups

theorem splitOnChar_no_sep {sep : Char} {l : List Char} (h : sep ∉ l) :
    splitOnChar sep l = [l] := by
  induction l with
  | nil => rfl
  | cons c rest ih =>
    have hc : c ≠ sep := fun hc => h (by simp [hc])
    have hrest : sep ∉ rest := fun hr => h (by simp [hr])
    rw [splitOnChar, if_neg hc, ih hrest]

theorem splitOnChar_append {sep : Char} {l₁ : List Char} (l₂ : List Char)
    (h : sep ∉ l₁) :
    splitOnChar sep (l₁ ++ sep :: l₂) = l₁ :: splitOnChar sep l₂ := by
  induction l₁ with
  | nil => simp [splitOnChar]
  | cons c rest ih =>
    have hc : c ≠ sep := fun hc => h (by simp [hc])
    have hrest : sep ∉ rest := fun hr => h (by simp [hr])
    rw [List.cons_append, splitOnChar, if_neg hc, ih hrest]

/-- `Uuid::Display`: the canonical hyphenated lowercase-hex form
8-4-4-4-12 of the 128-bit value. -/
def uuidToChars (u : Nat) : List Char :=
  hexFixed 8 (u / 2 ^ 96 % 2 ^ 32) ++ '-' :: (hexFixed 4 (u / 2 ^ 80 % 2 ^ 16)
    ++ '-' :: (hexFixed 4 (u / 2 ^ 64 % 2 ^ 16) ++ '-' :: (hexFixed 4 (u / 2 ^ 48 % 2 ^ 16)
    ++ '-' :: hexFixed 12 (u % 2 ^ 48))))

/-- `Uuid::parse_str`, modelled on the canonical hyphenated form the
`Display` implementation emits (the crate also accepts other layouts, but
only this one arises from the codec roundtrip). -/
def parseUuid (l : List Char) : Option Nat :=
  match splitOnChar '-' l with
  | [p₁, p₂, p₃, p₄, p₅] =>
    if p₁.length = 8 ∧ p₂.length = 4 ∧ p₃.length = 4 ∧ p₄.length = 4
        ∧ p₅.length = 12 then
      match parseHexFixed p₁, parseHexFixed p₂, parseHexFixed p₃,
          parseHexFixed p₄, parseHexFixed p₅ with
      | some a, some b, some c, some d, some e =>
        some (a * 2 ^ 96 + b * 2 ^ 80 + c * 2 ^ 64 + d * 2 ^ 48 + e)
      | _, _, _, _, _ => none
    else none
  | _ => none

theorem parseUuid_uuidToChars {u : Nat} (hu : u < 2 ^ 128) :
    parseUuid (uuidToChars u) = some u := by
  have hs₁ := hexFixed_safe 8 (u / 2 ^ 96 % 2 ^ 32)
  have hs₂ := hexFixed_safe 4 (u / 2 ^ 80 % 2 ^ 16)
  have hs₃ := hexFixed_safe 4 (u / 2 ^ 64 % 2 ^ 16)
  have hs₄ := hexFixed_safe 4 (u / 2 ^ 48 % 2 ^ 16)
  have hs₅ := hexFixed_safe 12 (u % 2 ^ 48)
  have hsplit : splitOnChar '-' (uuidToChars u)
      = [hexFixed 8 (u / 2 ^ 96 % 2 ^ 32), hexFixed 4 (u / 2 ^ 80 % 2 ^ 16),
         hexFixed 4 (u / 2 ^ 64 % 2 ^ 16), hexFixed 4 (u / 2 ^ 48 % 2 ^ 16),
         hexFixed 12 (u % 2 ^ 48)] := by
    unfold uuidToChars
    rw [splitOnChar_append _ (fun hm => (hs₁ _ hm).2.2 rfl),
      splitOnChar_append _ (fun hm => (hs₂ _ hm).2.2 rfl),
      splitOnChar_append _ (fun hm => (hs₃ _ hm).2.2 rfl),
      splitOnChar_append _ (fun hm => (hs₄ _ hm).2.2 rfl),
      splitOnChar_no_sep (fun hm => (hs₅ _ hm).2.2 rfl)]
  unfold parseUuid
  rw [hsplit]
  simp only [length_hexFixed, and_self, if_pos,
    parseHexFixed_hexFixed (show u / 2 ^ 96 % 2 ^ 32 < 16 ^ 8 by norm_num [Nat.mod_lt]),
    parseHexFixed_hexFixed (show u / 2 ^ 80 % 2 ^ 16 < 16 ^ 4 by norm_num [Nat.mod_lt]),
    parseHexFixed_hexFixed (show u / 2 ^ 64 % 2 ^ 16 < 16 ^ 4 by norm_num [Nat.mod_lt]),
    parseHexFixed_hexFixed (show u / 2 ^ 48 % 2 ^ 16 < 16 ^ 4 by norm_num [Nat.mod_lt]),
    parseHexFixed_hexFixed (show u % 2 ^ 48 < 16 ^ 12 by norm_num [Nat.mod_lt]),
    Option.some.injEq]
  omega

theorem uuidToChars_safe (u : Nat) :
    ∀ ch ∈ uuidToChars u, ch ≠ '&' ∧ ch ≠ '=' := by
  intro ch hch
  unfold uuidToChars at hch
  simp only [List.mem_append, List.mem_cons] at hch
  rcases hch with h | rfl | h | rfl | h | rfl | h | rfl | h
  · exact ⟨(hexFixed_safe _ _ ch h).1, (hexFixed_safe _ _ ch h).2.1⟩
  · exact ⟨by decide, by decide⟩
  · exact ⟨(hexFixed_safe _ _ ch h).1, (hexFixed_safe _ _ ch h).2.1⟩
  · exact ⟨by decide, by decide⟩
  · exact ⟨(hexFixed_safe _ _ ch h).1, (hexFixed_safe _ _ ch h).2.1⟩
  · exact ⟨by decide, by decide⟩
  · exact ⟨(hexFixed_safe _ _ ch h).1, (hexFixed_safe _ _ ch h).2.1⟩
  · exact ⟨by decide, by decide⟩
  · exact ⟨(hexFixed_safe _ _ ch h).1, (hexFixed_safe _ _ ch h).2.1⟩

/-- `str::split_once` on a separator: the text before the first
occurrence and everything after it, or `none` when absent. -/
def splitOnce (sep : Char) : List Char → Option (List Char × List Char)
  | [] => none
  | c :: rest =>
    if c = sep then some ([], rest)
    else
      match splitOnce sep rest with
      | some (pre, post) => some (c :: pre, post)
      | none => none

theorem splitOnce_append {sep : Char} {key : List Char} (v : List Char)
    (h : sep ∉ key) : splitOnce sep (key ++ sep :: v) = some (key, v) := by
  induction key with
  | nil => simp [splitOnce]
  | cons c rest ih =>
    have hc : c ≠ sep := fun hc => h (by simp [hc])
    have hrest : sep ∉ rest := fun hr => h (by simp [hr])
    rw [List.cons_append, splitOnce, if_neg hc, ih hrest]

theorem isPrefixOf_append_self (l₁ l₂ : List Char) :
    l₁.isPrefixOf (l₁ ++ l₂) = true := by
  induction l₁ with
  | nil => simp [List.isPrefixOf]
  | cons c rest ih => simp [List.isPrefixOf, ih]

/-- Data encoded in the pairing QR code (`PairingQrData` in
`protocol/pairing.rs`).  The `ip` and `name` strings are modelled by
their UTF-8 bytes; `pubkey` is the 32-byte `[u8; 32]`. -/
structure PairingQrData where
  session_id : Nat
  pubkey : List Nat
  ip : List Nat
  port : Nat
  name : List Nat
deriving DecidableEq

/-- The fixed scheme-and-query head `"omniclip://pair?"` that `to_url`
emits and `from_url` strips (`PAIRING_URL_SCHEME` plus `?`). -/
def pairUrlHead : List Char := "omniclip://pair?".data

/-- `PairingQrData::to_url`: the five query parameters in the fixed order
s, k, h, p, n — session id in canonical UUID form, pubkey in unpadded
URL-safe base64, address and name percent-encoded, port in decimal. -/
def PairingQrData.toUrl (d : PairingQrData) : List Char :=
  pairUrlHead ++ (('s' :: '=' :: uuidToChars d.session_id)
    ++ '&' :: (('k' :: '=' :: b64urlEncode d.pubkey)
    ++ '&' :: (('h' :: '=' :: percentEncode d.ip)
    ++ '&' :: (('p' :: '=' :: natToChars d.port)
    ++ '&' :: ('n' :: '=' :: percentEncode d.name)))))

/-- Accumulator of the five optional parameters while scanning the query
string, mirroring the five `Option` locals of `from_url`. -/
structure QrParams where
  session_id : Option Nat
  pubkey : Option (List Nat)
  ip : Option (List Nat)
  port : Option Nat
  name : Option (List Nat)
deriving DecidableEq

/-- All five parameters still unseen. -/
def emptyQrParams : QrParams := ⟨none, none, none, none, none⟩

/-- The loop body of `from_url` for one `key=value` part: recognised keys
update their slot (failing on a malformed value), unknown keys are
ignored, and a part without `=` is an invalid param. -/
def processPart (acc : QrParams) (part : List Char) : Except Error QrParams :=
  match splitOnce '=' part with
  | none => .error (.InvalidMessage "invalid param")
  | some (key, value) =>
    if key = ['s'] then
      match parseUuid value with
      | some u => .ok { acc with session_id := some u }
      | none => .error (.InvalidMessage "invalid session id")
    else if key = ['k'] then
      match b64Decode value with
      | none => .error (.InvalidMessage "invalid pubkey")
      | some bytes =>
        if bytes.length = 32 then .ok { acc with pubkey := some bytes }
        else .error (.InvalidMessage "invalid pubkey length")
    else if key = ['h'] then .ok { acc with ip := some (percentDecode value) }
    else if key = ['p'] then
      match parseU16 value with
      | some p => .ok { acc with port := some p }
      | none => .error (.InvalidMessage "invalid port")
    else if key = ['n'] then .ok { acc with name := some (percentDecode value) }
    else .ok acc

/-- The `for part in url.split('&')` loop of `from_url`, with the `?`
early return on each part. -/
def processParts : QrParams → List (List Char) → Except Error QrParams
  | acc, [] => .ok acc
  | acc, part :: rest =>
    match processPart acc part with
    | .ok acc₂ => processParts acc₂ rest
    | .error e => .error e

/-- The final struct literal of `from_url` with its `ok_or` chain: all
five parameters are required, and the first missing one (in the fixed
field order) names the error. -/
def assembleQr (acc : QrParams) : Except Error PairingQrData :=
  match acc.session_id with
  | none => .error (.InvalidMessage "missing session_id")
  | some s =>
    match acc.pubkey with
    | none => .error (.InvalidMessage "missing pubkey")
    | some k =>
      match acc.ip with
      | none => .error (.InvalidMessage "missing ip")
      | some h =>
        match acc.port with
        | none => .error (.InvalidMessage "missing port")
        | some p =>
          match acc.name with
          | none => .error (.InvalidMessage "missing name")
          | some n => .ok ⟨s, k, h, p, n⟩

/-- `PairingQrData::from_url`: strip the scheme head, scan the `&`-split
parts, then require all five parameters. -/
def PairingQrData.fromUrl (url : List Char) : Except Error PairingQrData :=
  if pairUrlHead.isPrefixOf url then
    match processParts emptyQrParams (splitOnChar '&' (url.drop pairUrlHead.length)) with
    | .error e => .error e
    | .ok acc => assembleQr acc
  else .error (.InvalidMessage "invalid scheme")

theorem processPart_s {sid : Nat} (h : sid < 2 ^ 128) :
    ∀ acc, processPart acc ('s' :: '=' :: uuidToChars sid)
      = .ok { acc with session_id := some sid } := by
  intro acc
  have hsp : splitOnce '=' ('s' :: '=' :: uuidToChars sid) = some (['s'], uuidToChars sid) :=
    splitOnce_append (uuidToChars sid) (by decide : '=' ∉ ['s'])
  simp [processPart, hsp, parseUuid_uuidToChars h]

theorem processPart_k {pk : List Nat} (hlen : pk.length = 32)
    (hb : ∀ b ∈ pk, b < 256) :
    ∀ acc, processPart acc ('k' :: '=' :: b64urlEncode pk)
      = .ok { acc with pubkey := some pk } := by
  intro acc
  have hsp : splitOnce '=' ('k' :: '=' :: b64urlEncode pk) = some (['k'], b64urlEncode pk) :=
    splitOnce_append (b64urlEncode pk) (by decide : '=' ∉ ['k'])
  simp [processPart, hsp, b64Decode_b64urlEncode pk hb, hlen]

theorem processPart_h {ip : List Nat} (hb : ∀ b ∈ ip, b < 256) :
    ∀ acc, processPart acc ('h' :: '=' :: percentEncode ip)
      = .ok { acc with ip := some ip } := by
  intro acc
  have hsp : splitOnce '=' ('h' :: '=' :: percentEncode ip) = some (['h'], percentEncode ip) :=
    splitOnce_append (percentEncode ip) (by decide : '=' ∉ ['h'])
  simp [processPart, hsp, percentDecode_percentEncode ip hb]

theorem processPart_p {port : Nat} (h : port < 65536) :
    ∀ acc, processPart acc ('p' :: '=' :: natToChars port)
      = .ok { acc with port := some port } := by
  intro acc
  have hsp : splitOnce '=' ('p' :: '=' :: natToChars port) = some (['p'], natToChars port) :=
    splitOnce_append (natToChars port) (by decide : '=' ∉ ['p'])
  simp [processPart, hsp, parseU16_natToChars port h]

theorem processPart_n {nm : List Nat} (hb : ∀ b ∈ nm, b < 256) :
    ∀ acc, processPart acc ('n' :: '=' :: percentEncode nm)
      = .ok { acc with name := some nm } := by
  intro acc
  have hsp : splitOnce '=' ('n' :: '=' :: percentEncode nm) = some (['n'], percentEncode nm) :=
    splitOnce_append (percentEncode nm) (by decide : '=' ∉ ['n'])
  simp [processPart, hsp, percentDecode_percentEncode nm hb]

theorem fromUrl_toUrl (d : PairingQrData)
    (hsid : d.session_id < 2 ^ 128)
    (hpkLen : d.pubkey.length = 32) (hpk : ∀ b ∈ d.pubkey, b < 256)
    (hip : ∀ b ∈ d.ip, b < 256) (hport : d.port < 65536)
    (hname : ∀ b ∈ d.name, b < 256) :
    PairingQrData.fromUrl d.toUrl = .ok d := by
  have h1 : '&' ∉ 's' :: '=' :: uuidToChars d.session_id := by
    intro hm
    rcases List.mem_cons.mp hm with hm | hm
    · exact absurd hm (by decide)
    rcases List.mem_cons.mp hm with hm | hm
    · exact absurd hm (by decide)
    · exact (uuidToChars_safe _ '&' hm).1 rfl
  have h2 : '&' ∉ 'k' :: '=' :: b64urlEncode d.pubkey := by
    intro hm
    rcases List.mem_cons.mp hm with hm | hm
    · exact absurd hm (by decide)
    rcases List.mem_cons.mp hm with hm | hm
    · exact absurd hm (by decide)
    · exact (b64urlEncode_safe _ hpk '&' hm).1 rfl
  have h3 : '&' ∉ 'h' :: '=' :: percentEncode d.ip := by
    intro hm
    rcases List.mem_cons.mp hm with hm | hm
    · exact absurd hm (by decide)
    rcases List.mem_cons.mp hm with hm | hm
    · exact absurd hm (by decide)
    · exact (percentEncode_safe _ hip '&' hm).1 rfl
  have h4 : '&' ∉ 'p' :: '=' :: natToChars d.port := by
    intro hm
    rcases List.mem_cons.mp hm with hm | hm
    · exact absurd hm (by decide)
    rcases List.mem_cons.mp hm with hm | hm
    · exact absurd hm (by decide)
    · exact (natToChars_safe _ '&' hm).1 rfl
  have h5 : '&' ∉ 'n' :: '=' :: percentEncode d.name := by
    intro hm
    rcases List.mem_cons.mp hm with hm | hm
    · exact absurd hm (by decide)
    rcases List.mem_cons.mp hm with hm | hm
    · exact absurd hm (by decide)
    · exact (percentEncode_safe _ hname '&' hm).1 rfl
  unfold PairingQrData.toUrl PairingQrData.fromUrl
  rw [if_pos (isPrefixOf_append_self _ _), List.drop_left,
    splitOnChar_append _ h1, splitOnChar_append _ h2, splitOnChar_append _ h3,
    splitOnChar_append _ h4, splitOnChar_no_sep h5]
  simp only [processParts, processPart_s hsid, processPart_k hpkLen hpk,
    processPart_h hip, processPart_p hport, processPart_n hname]
  rfl

/-- The key of a `key=value` query part, when it has one. -/
def partKey (part : List Char) : Option (List Char) :=
  (splitOnce '=' part).map Prod.fst

/-- The slot belonging to `key` is still unseen. -/
def qrFieldMissing (acc : QrParams) (key : List Char) : Prop :=
  (key = ['s'] → acc.session_id = none) ∧ (key = ['k'] → acc.pubkey = none)
    ∧ (key = ['h'] → acc.ip = none) ∧ (key = ['p'] → acc.port = none)
    ∧ (key = ['n'] → acc.name = none)

theorem processPart_ok_shape {acc : QrParams} {part : List Char} {acc₂ : QrParams}
    (h : processPart acc part = .ok acc₂) :
    (acc₂.session_id = acc.session_id ∨ partKey part = some ['s']) ∧
    (acc₂.pubkey = acc.pubkey ∨ partKey part = some ['k']) ∧
    (acc₂.ip = acc.ip ∨ partKey part = some ['h']) ∧
    (acc₂.port = acc.port ∨ partKey part = some ['p']) ∧
    (acc₂.name = acc.name ∨ partKey part = some ['n']) := by
  unfold processPart at h
  unfold partKey
  split at h
  · exact absurd h (by simp)
  · rename_i key value heq
    rw [heq]
    simp only [Option.map_some']
    by_cases hs : key = ['s']
    · rw [if_pos hs] at h
      split at h
      · rename_i u hu
        have hacc := Except.ok.inj h
        subst hacc
        exact ⟨Or.inr (by rw [hs]), Or.inl rfl, Or.inl rfl, Or.inl rfl, Or.inl rfl⟩
      · exact absurd h (by simp)
    rw [if_neg hs] at h
    by_cases hk : key = ['k']
    · rw [if_pos hk] at h
      split at h
      · exact absurd h (by simp)
      · rename_i bytes hbytes
        split at h
        · have hacc := Except.ok.inj h
          subst hacc
          exact ⟨Or.inl rfl, Or.inr (by rw [hk]), Or.inl rfl, Or.inl rfl, Or.inl rfl⟩
        · exact absurd h (by simp)
    rw [if_neg hk] at h
    by_cases hh : key = ['h']
    · rw [if_pos hh] at h
      have hacc := Except.ok.inj h
      subst hacc
      exact ⟨Or.inl rfl, Or.inl rfl, Or.inr (by rw [hh]), Or.inl rfl, Or.inl rfl⟩
    rw [if_neg hh] at h
    by_cases hp : key = ['p']
    · rw [if_pos hp] at h
      split at h
      · rename_i p hp₂
        have hacc := Except.ok.inj h
        subst hacc
        exact ⟨Or.inl rfl, Or.inl rfl, Or.inl rfl, Or.inr (by rw [hp]), Or.inl rfl⟩
      · exact absurd h (by simp)
    rw [if_neg hp] at h
    by_cases hn : key = ['n']
    · rw [if_pos hn] at h
      have hacc := Except.ok.inj h
      subst hacc
      exact ⟨Or.inl rfl, Or.inl rfl, Or.inl rfl, Or.inl rfl, Or.inr (by rw [hn])⟩
    rw [if_neg hn] at h
    have hacc := Except.ok.inj h
    subst hacc
    exact ⟨Or.inl rfl, Or.inl rfl, Or.inl rfl, Or.inl rfl, Or.inl rfl⟩

theorem processParts_key_absent {key : List Char} :
    ∀ (parts : List (List Char)) (acc : QrParams),
      (∀ p ∈ parts, partKey p ≠ some key) → qrFieldMissing acc key →
      (∃ e, processParts acc parts = .error e) ∨
      (∃ acc₂, processParts acc parts = .ok acc₂ ∧ qrFieldMissing acc₂ key) := by
  intro parts
  induction parts with
  | nil => intro acc _ hm; exact Or.inr ⟨acc, rfl, hm⟩
  | cons p rest ih =>
    intro acc hnk hm
    cases hpp : processPart acc p with
    | error e => exact Or.inl ⟨e, by simp [processParts, hpp]⟩
    | ok acc₂ =>
      have shape := processPart_ok_shape hpp
      have hkp : partKey p ≠ some key := hnk p (by simp)
      have hm₂ : qrFieldMissing acc₂ key := by
        unfold qrFieldMissing at hm ⊢
        refine ⟨fun hk => ?_, fun hk => ?_, fun hk => ?_, fun hk => ?_, fun hk => ?_⟩
        · rcases shape.1 with he | he
          · rw [he]; exact hm.1 hk
          · exact absurd (hk ▸ he) hkp
        · rcases shape.2.1 with he | he
          · rw [he]; exact hm.2.1 hk
          · exact absurd (hk ▸ he) hkp
        · rcases shape.2.2.1 with he | he
          · rw [he]; exact hm.2.2.1 hk
          · exact absurd (hk ▸ he) hkp
        · rcases shape.2.2.2.1 with he | he
          · rw [he]; exact hm.2.2.2.1 hk
          · exact absurd (hk ▸ he) hkp
        · rcases shape.2.2.2.2 with he | he
          · rw [he]; exact hm.2.2.2.2 hk
          · exact absurd (hk ▸ he) hkp
      have := ih acc₂ (fun q hq => hnk q (by simp [hq])) hm₂
      rcases this with ⟨e, he⟩ | ⟨acc₃, hok, hmiss⟩
      · exact Or.inl ⟨e, by simp [processParts, hpp, he]⟩
      · exact Or.inr ⟨acc₃, by simp [processParts, hpp, hok], hmiss⟩

theorem assembleQr_error {acc : QrParams}
    (h : acc.session_id = none ∨ acc.pubkey = none ∨ acc.ip = none
      ∨ acc.port = none ∨ acc.name = none) :
    ∃ e, assembleQr acc = .error e := by
  obtain ⟨s, k, i, p, n⟩ := acc
  cases s with
  | none => exact ⟨_, rfl⟩
  | some s =>
    cases k with
    | none => exact ⟨_, rfl⟩
    | some k =>
      cases i with
      | none => exact ⟨_, rfl⟩
      | some i =>
        cases p with
        | none => exact ⟨_, rfl⟩
        | some p =>
          cases n with
          | none => exact ⟨_, rfl⟩
          | some n => simp at h

theorem fromUrl_missing_key {key : List Char}
    (hkey : key ∈ [['s'], ['k'], ['h'], ['p'], ['n']]) (rest : List Char)
    (habsent : ∀ p ∈ splitOnChar '&' rest, partKey p ≠ some key) :
    ∃ e, PairingQrData.fromUrl (pairUrlHead ++ rest) = .error e := by
  unfold PairingQrData.fromUrl
  rw [if_pos (isPrefixOf_append_self _ _), List.drop_left]
  have hm₀ : qrFieldMissing emptyQrParams key :=
    ⟨fun _ => rfl, fun _ => rfl, fun _ => rfl, fun _ => rfl, fun _ => rfl⟩
  rcases processParts_key_absent (splitOnChar '&' rest) emptyQrParams habsent hm₀ with
    ⟨e, he⟩ | ⟨acc₂, hok, hmiss⟩
  · exact ⟨e, by rw [he]⟩
  · rw [hok]
    apply assembleQr_error
    fin_cases hkey
    · exact Or.inl (hmiss.1 rfl)
    · exact Or.inr (Or.inl (hmiss.2.1 rfl))
    · exact Or.inr (Or.inr (Or.inl (hmiss.2.2.1 rfl)))
    · exact Or.inr (Or.inr (Or.inr (Or.inl (hmiss.2.2.2.1 rfl))))
    · exact Or.inr (Or.inr (Or.inr (Or.inr (hmiss.2.2.2.2 rfl))))

theorem processPart_bad_k {v : List Char}
    (hbad : b64Decode v = none ∨ ∃ bs, b64Decode v = some bs ∧ bs.length ≠ 32) :
    ∀ acc, ∃ e, processPart acc ('k' :: '=' :: v) = .error e := by
  intro acc
  have hsp : splitOnce '=' ('k' :: '=' :: v) = some (['k'], v) :=
    splitOnce_append v (by decide : '=' ∉ ['k'])
  rcases hbad with hb | ⟨bs, hb, hlen⟩
  · exact ⟨.InvalidMessage "invalid pubkey", by simp [processPart, hsp, hb]⟩
  · exact ⟨.InvalidMessage "invalid pubkey length", by simp [processPart, hsp, hb, hlen]⟩

theorem processParts_hits_error {part : List Char}
    (herr : ∀ acc, ∃ e, processPart acc part = .error e) :
    ∀ parts : List (List Char), part ∈ parts →
      ∀ acc, ∃ e, processParts acc parts = .error e := by
  intro parts
  induction parts with
  | nil => intro hmem; simp at hmem
  | cons q rest ih =>
    intro hmem acc
    rcases List.mem_cons.mp hmem with rfl | hmem₂
    · obtain ⟨e, he⟩ := herr acc
      exact ⟨e, by simp [processParts, he]⟩
    · cases hpp : processPart acc q with
      | error e => exact ⟨e, by simp [processParts, hpp]⟩
      | ok acc₂ =>
        obtain ⟨e, he⟩ := ih hmem₂ acc₂
        exact ⟨e, by simp [processParts, hpp, he]⟩

theorem fromUrl_bad_pubkey (rest v : List Char)
    (hmem : ('k' :: '=' :: v) ∈ splitOnChar '&' rest)
    (hbad : b64Decode v = none ∨ ∃ bs, b64Decode v = some bs ∧ bs.length ≠ 32) :
    ∃ e, PairingQrData.fromUrl (pairUrlHead ++ rest) = .error e := by
  unfold PairingQrData.fromUrl
  rw [if_pos (isPrefixOf_append_self _ _), List.drop_left]
  obtain ⟨e, he⟩ := processParts_hits_error (processPart_bad_k hbad)
    (splitOnChar '&' rest) hmem emptyQrParams
  exact ⟨e, by rw [he]⟩

/-- C6: the QR URL codec roundtrips every descriptor field-for-field, and
`from_url` rejects a URL whose query is missing any of the five required
parameters, as well as one whose `k` value does not decode to exactly 32
bytes. -/
theorem qr_url_roundtrip_and_rejection :
    (∀ d : PairingQrData, d.session_id < 2 ^ 128 → d.pubkey.length = 32 →
      (∀ b ∈ d.pubkey, b < 256) → (∀ b ∈ d.ip, b < 256) → d.port < 65536 →
      (∀ b ∈ d.name, b < 256) → PairingQrData.fromUrl d.toUrl = .ok d) ∧
    (∀ key ∈ [['s'], ['k'], ['h'], ['p'], ['n']], ∀ rest : List Char,
      (∀ p ∈ splitOnChar '&' rest, partKey p ≠ some key) →
      ∃ e, PairingQrData.fromUrl (pairUrlHead ++ rest) = .error e) ∧
    (∀ rest v : List Char, ('k' :: '=' :: v) ∈ splitOnChar '&' rest →
      (b64Decode v = none ∨ ∃ bs, b64Decode v = some bs ∧ bs.length ≠ 32) →
      ∃ e, PairingQrData.fromUrl (pairUrlHead ++ rest) = .error e) ∧
    (∀ url : List Char, pairUrlHead.isPrefixOf url = false →
      PairingQrData.fromUrl url = .error (.InvalidMessage "invalid scheme")) := by
  refine ⟨fun d h₁ h₂ h₃ h₄ h₅ h₆ => fromUrl_toUrl d h₁ h₂ h₃ h₄ h₅ h₆,
    fun key hkey rest habsent => fromUrl_missing_key hkey rest habsent,
    fun rest v hmem hbad => fromUrl_bad_pubkey rest v hmem hbad,
    fun url hurl => ?_⟩
  unfold PairingQrData.fromUrl
  rw [hurl]
  rfl

/-- Witness for the C6 theorem: a concrete descriptor roundtrips; a query
with no `k` parameter is rejected; a `k` value decoding to 0 bytes is
rejected. -/
theorem qr_url_roundtrip_and_rejection_witness :
    ((PairingQrData.mk 7 (List.replicate 32 0) [49, 48] 17394 [100]).session_id < 2 ^ 128 ∧
      (PairingQrData.mk 7 (List.replicate 32 0) [49, 48] 17394 [100]).pubkey.length = 32 ∧
      (∀ b ∈ (PairingQrData.mk 7 (List.replicate 32 0) [49, 48] 17394 [100]).pubkey, b < 256) ∧
      (∀ b ∈ (PairingQrData.mk 7 (List.replicate 32 0) [49, 48] 17394 [100]).ip, b < 256) ∧
      (PairingQrData.mk 7 (List.replicate 32 0) [49, 48] 17394 [100]).port < 65536 ∧
      (∀ b ∈ (PairingQrData.mk 7 (List.replicate 32 0) [49, 48] 17394 [100]).name, b < 256) ∧
      PairingQrData.fromUrl (PairingQrData.mk 7 (List.replicate 32 0) [49, 48] 17394 [100]).toUrl
        = .ok (PairingQrData.mk 7 (List.replicate 32 0) [49, 48] 17394 [100])) ∧
    ((['k'] ∈ [['s'], ['k'], ['h'], ['p'], ['n']]) ∧
      (∀ p ∈ splitOnChar '&' ([] : List Char), partKey p ≠ some ['k']) ∧
      ∃ e, PairingQrData.fromUrl (pairUrlHead ++ []) = .error e) ∧
    ((('k' :: '=' :: ([] : List Char)) ∈ splitOnChar '&' ['k', '=']) ∧
      ∃ e, PairingQrData.fromUrl (pairUrlHead ++ ['k', '=']) = .error e) :=
  ⟨⟨by decide, by decide, by decide, by decide, by decide, by decide,
    qr_url_roundtrip_and_rejection.1 _ (by decide) (by decide) (by decide)
      (by decide) (by decide) (by decide)⟩,
   ⟨by decide, by decide,
    qr_url_roundtrip_and_rejection.2.1 ['k'] (by decide) [] (by decide)⟩,
   ⟨by decide,
    qr_url_roundtrip_and_rejection.2.2.1 ['k', '='] [] (by decide)
      (Or.inr ⟨[], rfl, by decide⟩)⟩⟩

end Omniclip
